import Mathlib

/-!
osgEarth horizon culling (src/osgEarth/Horizon.cpp)

A shallow embedding of `Horizon` (the per-eye horizon occlusion test) and of the
`osg::Vec3d` / `osg::Plane` operations it calls.

The program computes on C++ `double`s.  The embedding is generic in the scalar type
(class `Flt`: the arithmetic, the comparisons and the libm calls the code makes; `sqrtf`,
which line 86 calls on a `double`, is an operation of its own).  Two scalar types
instantiate it.

`F64` is the machine double: IEEE-754 binary64 with round-to-nearest-even, signed zeros,
subnormals, infinities and NaN; `sqrtf` rounds its argument to binary32 and takes the root
there.  `tan` and `acos`, which the standard does not determine, are a parameter (`Libm`).
Every claim whose truth depends on rounding is settled on `F64`.

`Dbl` is an idealised double: a real number or NaN.  Rounding and overflow are idealised
away (finite values are exact reals, `sqrtf` is `sqrt`); what is kept is the part of
IEEE-754 the control flow depends on: `sqrt` of a negative number, a quotient by zero and
`acos` outside [-1, 1] are NaN, NaN propagates through arithmetic, every ordered comparison
with NaN is false and `!=` with NaN is true.  It serves the claims about the geometry, at
inputs where rounding does not decide the answer.

Infinities are not modelled in `Dbl`.  IEEE-754 gives `x/0 = ±inf` for `x ≠ 0`; with
non-zero ellipsoid radii the only such quotient the program forms is `1.0/VCmag` in
`setEye` for an eye at the body centre, and its value enters only `VPmag / VHmag` with
`VHmag = NaN`, so the members `setEye` stores are the same.
-/

/-- The scalar operations `Horizon.cpp` performs on `double`s. -/
class Flt (α : Type) extends Add α, Sub α, Mul α, Div α, Neg α where
  /-- a non-negative integer literal, such as `1.0` or `1e7` -/
  lit : Nat → α
  /-- libm `sqrt` -/
  sqrt : α → α
  /-- libm `sqrtf` applied to a `double` and stored in a `double`: the argument is converted
  to `float`, the root is taken in single precision, the result is converted back -/
  sqrtf : α → α
  /-- libm `tan` -/
  tan : α → α
  /-- libm `acos` -/
  acos : α → α
  /-- the comparison `a <= b` -/
  le : α → α → Bool
  /-- the comparison `a < b` -/
  lt : α → α → Bool
  /-- the comparison `a == b` -/
  eq : α → α → Bool

/-- An `osg::Vec3d`. -/
structure Vec3 (α : Type) where
  x : α
  y : α
  z : α

/-- An `osg::EllipsoidModel`, as far as `Horizon` reads it. -/
structure EllipsoidModel (α : Type) where
  radiusEquator : α
  radiusPolar : α

/-- An `osg::Plane` as written by `Plane::set(normal, d)`: the plane `normal·p + d = 0`. -/
structure Plane (α : Type) where
  normal : Vec3 α
  d : α

/-- The data members of `Horizon`. -/
structure Horizon (α : Type) where
  scale : Vec3 α
  scaleInv : Vec3 α
  eye : Vec3 α
  eyeUnit : Vec3 α
  VC : Vec3 α
  VCmag : α
  VCmag2 : α
  VHmag2 : α
  coneCos : α
  coneTan : α

/-- The `return` statement through which `Horizon::isVisible` leaves. -/
inductive Exit where
  /-- line 98: the radius is at least one of the ellipsoid radii -/
  | stage0
  /-- line 114: in front of the horizon plane -/
  | stage1
  /-- line 130: not entirely inside the horizon cone -/
  | stage2
  /-- line 134 -/
  | occluded
  deriving DecidableEq, Repr

/-- The boolean each `return` of `isVisible` yields. -/
def Exit.result : Exit → Bool
  | .stage0 => true
  | .stage1 => true
  | .stage2 => true
  | .occluded => false

namespace Vec3

variable {α : Type} [Flt α]

/-- The default constructor `Vec3d()`: all components zero. -/
def zero : Vec3 α := ⟨Flt.lit 0, Flt.lit 0, Flt.lit 0⟩

/-- `Vec3d::operator!=`. -/
def ne (a b : Vec3 α) : Bool :=
  !(Flt.eq a.x b.x) || !(Flt.eq a.y b.y) || !(Flt.eq a.z b.z)

/-- Unary `Vec3d::operator-`. -/
def neg (a : Vec3 α) : Vec3 α := ⟨-a.x, -a.y, -a.z⟩

/-- Binary `Vec3d::operator-`. -/
def sub (a b : Vec3 α) : Vec3 α := ⟨a.x - b.x, a.y - b.y, a.z - b.z⟩

/-- The dot product `Vec3d::operator*(const Vec3d&)`. -/
def dot (a b : Vec3 α) : α := a.x * b.x + a.y * b.y + a.z * b.z

/-- Multiplication by a scalar, `Vec3d::operator*(double)`. -/
def smul (a : Vec3 α) (k : α) : Vec3 α := ⟨a.x * k, a.y * k, a.z * k⟩

/-- `osg::componentMultiply`. -/
def componentMultiply (a b : Vec3 α) : Vec3 α := ⟨a.x * b.x, a.y * b.y, a.z * b.z⟩

/-- `Vec3d::length`. -/
def length (a : Vec3 α) : α := Flt.sqrt (a.x * a.x + a.y * a.y + a.z * a.z)

/-- `Vec3d::normalize`: divides by the length when that is positive, else leaves the
vector as it is. -/
def normalize (a : Vec3 α) : Vec3 α :=
  let norm := length a
  if Flt.lt (Flt.lit 0) norm then
    let inv := Flt.lit 1 / norm
    ⟨a.x * inv, a.y * inv, a.z * inv⟩
  else a

end Vec3

namespace Horizon

variable {α : Type} [Flt α]

/-- `Horizon::setEye`. -/
def setEye (h : Horizon α) (eye : Vec3 α) : Horizon α :=
  if Vec3.ne eye h.eye then
    let eyeUnit := Vec3.normalize eye
    let VC := Vec3.componentMultiply (Vec3.neg eye) h.scale
    let VCmag := Vec3.length VC
    let VCmag2 := VCmag * VCmag
    let VHmag2 := VCmag2 - Flt.lit 1
    let VCmagL := Flt.sqrt VCmag2
    let VPmag := VCmagL - Flt.lit 1 / VCmagL
    let VHmag := Flt.sqrtf VHmag2
    let coneCos := VPmag / VHmag
    let coneTan := Flt.tan (Flt.acos coneCos)
    { h with
      eye := eye, eyeUnit := eyeUnit, VC := VC, VCmag := VCmag, VCmag2 := VCmag2,
      VHmag2 := VHmag2, coneCos := coneCos, coneTan := coneTan }
  else h

/-- `Horizon::setEllipsoid`. -/
def setEllipsoid (h : Horizon α) (e : EllipsoidModel α) : Horizon α :=
  let h1 := { h with scaleInv := ⟨e.radiusEquator, e.radiusEquator, e.radiusPolar⟩ }
  let h2 := { h1 with
    scale := ⟨Flt.lit 1 / e.radiusEquator, Flt.lit 1 / e.radiusEquator,
      Flt.lit 1 / e.radiusPolar⟩ }
  setEye h2 ⟨Flt.lit 10000000, Flt.lit 0, Flt.lit 0⟩

/-- The constructor `Horizon::Horizon(const osg::EllipsoidModel&)`.  Before its body runs
the five `Vec3d` members are default-constructed and the five `double` members hold
indeterminate values, here those of `mem`. -/
def new (mem : Horizon α) (e : EllipsoidModel α) : Horizon α :=
  setEllipsoid
    { mem with
      scale := Vec3.zero, scaleInv := Vec3.zero, eye := Vec3.zero, eyeUnit := Vec3.zero,
      VC := Vec3.zero }
    e

/-- `Horizon::isVisible`, returning the `return` statement taken. -/
def isVisibleExit (h : Horizon α) (target : Vec3 α) (radius : α) : Exit :=
  if Flt.le h.scaleInv.x radius || Flt.le h.scaleInv.y radius || Flt.le h.scaleInv.z radius then
    .stage0
  else
    let VT0 : Vec3 α := Vec3.zero
    let VT1 := Vec3.componentMultiply VT0 h.scale
    let VTdotVC := Vec3.dot VT1 h.VC
    if Flt.le VTdotVC h.VHmag2 then
      .stage1
    else
      let VT := Vec3.sub target h.eye
      let a := Vec3.dot VT (Vec3.neg h.eyeUnit)
      let b := a * h.coneTan
      let c := Flt.sqrt (Vec3.dot VT VT - a * a)
      let d := c - b
      let e := d * h.coneCos
      if Flt.lt (-radius) e then
        .stage2
      else
        .occluded

/-- `Horizon::isVisible`. -/
def isVisible (h : Horizon α) (target : Vec3 α) (radius : α) : Bool :=
  (isVisibleExit h target radius).result

/-- `Horizon::getPlane`: `none` is `return false` (the out-parameter is not written),
`some p` is `return true` with `p` written to the out-parameter. -/
def getPlane (h : Horizon α) : Option (Plane α) :=
  if Flt.eq h.VCmag2 (Flt.lit 0) then
    none
  else
    let PCmag := Flt.lit 1 / h.VCmag
    let pcWorld := Vec3.componentMultiply (Vec3.smul h.eyeUnit PCmag) h.scaleInv
    let dist := Vec3.length pcWorld
    some ⟨h.eyeUnit, -dist⟩

end Horizon

/-- An idealised `double`: a real number, or NaN. -/
inductive Dbl where
  | fin (x : ℝ)
  | nan

namespace Dbl

/-- A binary arithmetic operation that is defined on all pairs of reals. -/
def lift2 (f : ℝ → ℝ → ℝ) : Dbl → Dbl → Dbl
  | fin a, fin b => fin (f a b)
  | _, _ => nan

/-- Division: a quotient by zero is not a real number (see the note on infinities above). -/
noncomputable def div : Dbl → Dbl → Dbl
  | fin a, fin b => if b = 0 then nan else fin (a / b)
  | _, _ => nan

/-- Negation. -/
def neg : Dbl → Dbl
  | fin a => fin (-a)
  | nan => nan

/-- Square root: NaN below zero. -/
noncomputable def sqrt : Dbl → Dbl
  | fin a => if a < 0 then nan else fin (Real.sqrt a)
  | nan => nan

/-- Tangent: undefined at the poles. -/
noncomputable def tan : Dbl → Dbl
  | fin a => if Real.cos a = 0 then nan else fin (Real.tan a)
  | nan => nan

/-- Arc cosine: NaN outside [-1, 1]. -/
noncomputable def acos : Dbl → Dbl
  | fin a => if -1 ≤ a ∧ a ≤ 1 then fin (Real.arccos a) else nan
  | nan => nan

/-- The comparison `<=`: false when an operand is NaN. -/
noncomputable def le : Dbl → Dbl → Bool
  | fin a, fin b => decide (a ≤ b)
  | _, _ => false

/-- The comparison `<`: false when an operand is NaN. -/
noncomputable def lt : Dbl → Dbl → Bool
  | fin a, fin b => decide (a < b)
  | _, _ => false

/-- The comparison `==`: false when an operand is NaN. -/
noncomputable def eq : Dbl → Dbl → Bool
  | fin a, fin b => decide (a = b)
  | _, _ => false

end Dbl

noncomputable instance : Flt Dbl where
  add := Dbl.lift2 (· + ·)
  sub := Dbl.lift2 (· - ·)
  mul := Dbl.lift2 (· * ·)
  div := Dbl.div
  neg := Dbl.neg
  lit n := Dbl.fin (n : ℝ)
  sqrt := Dbl.sqrt
  sqrtf := Dbl.sqrt
  tan := Dbl.tan
  acos := Dbl.acos
  le := Dbl.le
  lt := Dbl.lt
  eq := Dbl.eq

/-- A vector of real coordinates as a vector of doubles. -/
def Vec3.toDbl (v : Vec3 ℝ) : Vec3 Dbl := ⟨.fin v.x, .fin v.y, .fin v.z⟩

/-- The ellipsoid with the given real radii. -/
def EllipsoidModel.ofReal (Req Rpol : ℝ) : EllipsoidModel Dbl := ⟨.fin Req, .fin Rpol⟩

/-- A `Horizon` constructed from the ellipsoid `(Req, Rpol)` and then given `setEye(eye)`. -/
noncomputable def Horizon.configured (mem : Horizon Dbl) (Req Rpol : ℝ) (eye : Vec3 ℝ) :
    Horizon Dbl :=
  (Horizon.new mem (EllipsoidModel.ofReal Req Rpol)).setEye eye.toDbl

/-- The state `setEye` writes when the eye differs from the stored one: every eye-derived
member as a function of `scale` and the new eye (lines 75-89), `scale` and `scaleInv` kept. -/
def Horizon.recompute {α : Type} [Flt α] (scale scaleInv eye : Vec3 α) : Horizon α :=
  let VC := Vec3.componentMultiply (Vec3.neg eye) scale
  let VCmag := Vec3.length VC
  let VCmag2 := VCmag * VCmag
  let VHmag2 := VCmag2 - Flt.lit 1
  let VCmagL := Flt.sqrt VCmag2
  let VPmag := VCmagL - Flt.lit 1 / VCmagL
  let VHmag := Flt.sqrtf VHmag2
  let coneCos := VPmag / VHmag
  { scale := scale, scaleInv := scaleInv, eye := eye, eyeUnit := Vec3.normalize eye,
    VC := VC, VCmag := VCmag, VCmag2 := VCmag2, VHmag2 := VHmag2, coneCos := coneCos,
    coneTan := Flt.tan (Flt.acos coneCos) }

/-- The squared length of `eye∘scale`, the eye in the space where the ellipsoid
`(Req, Rpol)` is the unit sphere: above 1 outside the ellipsoid, below 1 inside. -/
noncomputable def scaledMag2 (Req Rpol : ℝ) (eye : Vec3 ℝ) : ℝ :=
  (eye.x / Req) ^ 2 + (eye.y / Req) ^ 2 + (eye.z / Rpol) ^ 2

/-- The Euclidean length of a vector of reals. -/
noncomputable def Vec3.norm (v : Vec3 ℝ) : ℝ := Real.sqrt (v.x * v.x + v.y * v.y + v.z * v.z)

/-- The rotation about the polar (z) axis with matrix `[[c,-s,0],[s,c,0],[0,0,1]]`. -/
noncomputable def Vec3.rotZ (c s : ℝ) (v : Vec3 ℝ) : Vec3 ℝ :=
  ⟨c * v.x - s * v.y, s * v.x + c * v.y, v.z⟩

/-- A storage for the constructor in which every member holds NaN. -/
def Horizon.blank : Horizon Dbl :=
  { scale := ⟨.nan, .nan, .nan⟩, scaleInv := ⟨.nan, .nan, .nan⟩, eye := ⟨.nan, .nan, .nan⟩,
    eyeUnit := ⟨.nan, .nan, .nan⟩, VC := ⟨.nan, .nan, .nan⟩, VCmag := .nan, VCmag2 := .nan,
    VHmag2 := .nan, coneCos := .nan, coneTan := .nan }

/-- Stage 1 as the specification words it: the target is moved toward the eye by `radius`
along the eye-to-target direction, the vector from the eye to that point is taken to
scaled space and dotted with `scaledEyeToCenter`; the stage answers "visible" when the
result is at most `scaledHorizonMag2`. -/
def Horizon.stage1Spec {α : Type} [Flt α] (h : Horizon α) (target : Vec3 α) (radius : α) :
    Bool :=
  let dir := Vec3.normalize (Vec3.sub target h.eye)
  let adjusted := Vec3.sub target (Vec3.smul dir radius)
  let VT := Vec3.componentMultiply (Vec3.sub adjusted h.eye) h.scale
  Flt.le (Vec3.dot VT h.VC) h.VHmag2

/-- Stage 2 as the specification words it: `e > -radius` for
`a = (target-eye)·(-eyeUnit)`, `b = a*coneTangent`, `c = sqrt(|target-eye|^2 - a^2)`,
`d = c - b`, `e = d*coneCosine`. -/
def Horizon.stage2Spec {α : Type} [Flt α] (h : Horizon α) (target : Vec3 α) (radius : α) :
    Bool :=
  let VT := Vec3.sub target h.eye
  let a := Vec3.dot VT (Vec3.neg h.eyeUnit)
  let b := a * h.coneTan
  let c := Flt.sqrt (Vec3.dot VT VT - a * a)
  let d := c - b
  let e := d * h.coneCos
  Flt.lt (-radius) e

/-- A horizon point of the ellipsoid `(Req, Rpol)` for the eye: a point `p` of the
ellipsoid whose tangent plane passes through the eye, `(p∘scale)·(p∘scale) = 1` and
`(p∘scale)·(eye∘scale) = 1`. -/
def IsHorizonPoint (Req Rpol : ℝ) (eye p : Vec3 ℝ) : Prop :=
  (p.x * (1 / Req)) * (p.x * (1 / Req)) + (p.y * (1 / Req)) * (p.y * (1 / Req)) +
      (p.z * (1 / Rpol)) * (p.z * (1 / Rpol)) = 1 ∧
    (p.x * (1 / Req)) * (eye.x * (1 / Req)) + (p.y * (1 / Req)) * (eye.y * (1 / Req)) +
      (p.z * (1 / Rpol)) * (eye.z * (1 / Rpol)) = 1

/-- The copy constructor `Horizon::Horizon(const Horizon&)`: member by member. -/
def Horizon.copy {α : Type} (rhs : Horizon α) : Horizon α :=
  { scale := rhs.scale, scaleInv := rhs.scaleInv, eye := rhs.eye, eyeUnit := rhs.eyeUnit,
    VC := rhs.VC, VCmag := rhs.VCmag, VCmag2 := rhs.VCmag2, VHmag2 := rhs.VHmag2,
    coneCos := rhs.coneCos, coneTan := rhs.coneTan }

/-- The values of `osg::NodeVisitor::VisitorType`. -/
inductive VisitorType where
  | NODE_VISITOR
  | UPDATE_VISITOR
  | EVENT_VISITOR
  | COLLECT_OCCLUDER_VISITOR
  | CULL_VISITOR
  | INTERSECTION_VISITOR
  deriving DecidableEq, Repr

/-- What `HorizonCullCallback::operator()` reads of a non-null `osg::Node*`: the centre and
the radius of `getBound()`. -/
structure Node (α : Type) where
  center : Vec3 α
  radius : α

/-- What `HorizonCullCallback::operator()` reads of a non-null `osg::NodeVisitor*`:
`getVisitorType()`, `getViewPoint()`, and the map `p ↦ p * local2world` for the matrix
`osg::computeLocalToWorld(getNodePath())`. -/
structure NodeVisitor (α : Type) where
  visitorType : VisitorType
  viewPoint : Vec3 α
  local2world : Vec3 α → Vec3 α

/-- The data members of `HorizonCullCallback`. -/
structure HorizonCullCallback (α : Type) where
  horizon : Horizon α
  enabled : Bool

/-- `HorizonCullCallback::operator()`; `none` is a null pointer.  The result is the
callback after the call and whether `traverse(node, nv)` was called. -/
def HorizonCullCallback.operatorCall {α : Type} [Flt α] (cb : HorizonCullCallback α)
    (node : Option (Node α)) (nv : Option (NodeVisitor α)) : HorizonCullCallback α × Bool :=
  let visible : Bool :=
    match cb.enabled, node, nv with
    | true, some n, some v =>
      if v.visitorType = VisitorType.CULL_VISITOR then
        let horizon := Horizon.copy cb.horizon
        let horizon := horizon.setEye (v.local2world v.viewPoint)
        horizon.isVisible (v.local2world n.center) n.radius
      else true
    | _, _, _ => true
  (cb, visible)

/-! ## Machine doubles

`F64` is IEEE-754 binary64 with round-to-nearest-even, as the compiled program computes:
signed zeros, subnormals, infinities and one NaN.  A finite value is `±m·2^e`; every
operation returns the canonical form (`2^52 ≤ m < 2^53`, or `e = -1074` for subnormals and
zero).  `+ - * /` and `sqrt` are correctly rounded, as the standard requires; `sqrtf` goes
through binary32.  `tan` and `acos` are not determined by the standard: they are a
parameter (`Libm`). -/

/-- The number of binary digits of `n`, by halving `n` at most `fuel` times. -/
def bitLenFuel : Nat → Nat → Nat
  | 0, _ => 0
  | fuel + 1, n => if n = 0 then 0 else bitLenFuel fuel (n / 2) + 1

/-- The number of binary digits of `n` (0 for 0). -/
def bitLen (n : Nat) : Nat := bitLenFuel n n

/-- The integer square root, one binary digit at a time from digit `i - 1` down. -/
def isqrtAux : Nat → Nat → Nat → Nat
  | 0, _, r => r
  | i + 1, n, r =>
    if (r + 2 ^ i) * (r + 2 ^ i) ≤ n then isqrtAux i n (r + 2 ^ i) else isqrtAux i n r

/-- The integer square root: the largest `r` with `r * r ≤ n`. -/
def isqrt (n : Nat) : Nat := isqrtAux (bitLen n / 2 + 1) n 0

/-- An IEEE-754 binary64 value: `fin neg m e` is `(-1)^neg · m · 2^e`. -/
inductive F64 where
  | fin (neg : Bool) (m : Nat) (e : Int)
  | inf (neg : Bool)
  | nan
  deriving DecidableEq, Repr

namespace F64

/-- The last step of rounding: a mantissa that reached `2^p` moves to the next exponent,
an exponent above `emax` overflows to infinity. -/
def finish (p : Nat) (emax : Int) (neg : Bool) (m : Nat) (e : Int) : F64 :=
  if m = 2 ^ p then (if emax < e + 1 then inf neg else fin neg (2 ^ (p - 1)) (e + 1))
  else if emax < e then inf neg else fin neg m e

/-- The value `±n·2^e` rounded to nearest, ties to even, in the format with `p` mantissa
bits, least exponent `emin` and greatest exponent `emax`. -/
def roundTo (p : Nat) (emin emax : Int) (neg : Bool) (n : Nat) (e : Int) : F64 :=
  if n = 0 then fin neg 0 emin
  else
    let t := max (e + bitLen n - p) emin
    if t ≤ e then finish p emax neg (n * 2 ^ (e - t).toNat) t
    else
      let sh := (t - e).toNat
      let q := n / 2 ^ sh
      let r := n % 2 ^ sh
      let half := 2 ^ (sh - 1)
      finish p emax neg (if half < r ∨ (r = half ∧ q % 2 = 1) then q + 1 else q) t

/-- Rounding to binary64. -/
def round (neg : Bool) (n : Nat) (e : Int) : F64 := roundTo 53 (-1074) 971 neg n e

/-- Rounding to binary32. -/
def roundSingle (neg : Bool) (n : Nat) (e : Int) : F64 := roundTo 24 (-149) 104 neg n e

/-- The double nearest to a natural number. -/
def ofNat (n : Nat) : F64 := round false n 0

/-- Unary minus. -/
def neg : F64 → F64
  | fin s m e => fin (!s) m e
  | inf s => inf (!s)
  | nan => nan

/-- Multiplication. -/
def mul : F64 → F64 → F64
  | nan, _ => nan
  | _, nan => nan
  | inf s, inf t => inf (xor s t)
  | inf s, fin t m _ => if m = 0 then nan else inf (xor s t)
  | fin s m _, inf t => if m = 0 then nan else inf (xor s t)
  | fin s m e, fin t n f => round (xor s t) (m * n) (e + f)

/-- The sum of two finite values: a zero leaves the other operand as it is, two zeros give
`-0` only when both are `-0`, an exact sum of zero is `+0`. -/
def addFin (s : Bool) (m : Nat) (e : Int) (t : Bool) (n : Nat) (f : Int) : F64 :=
  if m = 0 ∧ n = 0 then fin (s && t) 0 (-1074)
  else if m = 0 then fin t n f
  else if n = 0 then fin s m e
  else
    let g := min e f
    let a := m * 2 ^ (e - g).toNat
    let b := n * 2 ^ (f - g).toNat
    if s = t then round s (a + b) g
    else if a = b then fin false 0 (-1074)
    else if b < a then round s (a - b) g
    else round t (b - a) g

/-- Addition. -/
def add : F64 → F64 → F64
  | nan, _ => nan
  | _, nan => nan
  | inf s, inf t => if s = t then inf s else nan
  | inf s, fin _ _ _ => inf s
  | fin _ _ _, inf t => inf t
  | fin s m e, fin t n f => addFin s m e t n f

/-- Subtraction: `a - b` is `a + (-b)`. -/
def sub (a b : F64) : F64 := add a (neg b)

/-- Division: the quotient to at least 56 digits, with a last digit that records a non-zero
remainder, then rounded. -/
def div : F64 → F64 → F64
  | nan, _ => nan
  | _, nan => nan
  | inf _, inf _ => nan
  | inf s, fin t _ _ => inf (xor s t)
  | fin s _ _, inf t => fin (xor s t) 0 (-1074)
  | fin s m e, fin t n f =>
    if n = 0 then (if m = 0 then nan else inf (xor s t))
    else if m = 0 then fin (xor s t) 0 (-1074)
    else
      let k := 55 + bitLen n
      let q := m * 2 ^ k / n
      let r := m * 2 ^ k % n
      round (xor s t) (2 * q + (if r = 0 then 0 else 1)) (e - f - k - 1)

/-- The square root of `m·2^e`, `m > 0`, rounded to the format `(p, emin, emax)`, `p ≤ 53`:
the root to at least 65 digits, with a last digit that records an inexact root. -/
def sqrtTo (p : Nat) (emin emax : Int) (m : Nat) (e : Int) : F64 :=
  let m1 := if e % 2 = 0 then m else 2 * m
  let e1 := if e % 2 = 0 then e else e - 1
  let n := m1 * 4 ^ 64
  let s := isqrt n
  roundTo p emin emax false (2 * s + (if s * s = n then 0 else 1)) (e1 / 2 - 64 - 1)

/-- libm `sqrt`. -/
def sqrt : F64 → F64
  | nan => nan
  | inf s => if s then nan else inf false
  | fin s m e => if m = 0 then fin s 0 (-1074) else if s then nan else sqrtTo 53 (-1074) 971 m e

/-- The conversion `double → float`; the result is written as `±m·2^e` with `m < 2^24`. -/
def toSingle : F64 → F64
  | fin s m e => roundSingle s m e
  | x => x

/-- The square root in binary32, of a value of that format. -/
def sqrtSingle : F64 → F64
  | nan => nan
  | inf s => if s then nan else inf false
  | fin s m e => if m = 0 then fin s 0 (-149) else if s then nan else sqrtTo 24 (-149) 104 m e

/-- The conversion `float → double`, which is exact. -/
def ofSingle : F64 → F64
  | fin s m e => round s m e
  | x => x

/-- libm `sqrtf` on a `double` argument with a `double` result. -/
def sqrtf (x : F64) : F64 := ofSingle (sqrtSingle (toSingle x))

/-- The order of two finite values. -/
def cmpFin (s : Bool) (m : Nat) (e : Int) (t : Bool) (n : Nat) (f : Int) : Ordering :=
  if m = 0 ∧ n = 0 then .eq
  else if m = 0 then (if t then .gt else .lt)
  else if n = 0 then (if s then .lt else .gt)
  else if s ≠ t then (if s then .lt else .gt)
  else
    let g := min e f
    let a := m * 2 ^ (e - g).toNat
    let b := n * 2 ^ (f - g).toNat
    if a = b then .eq else if (a < b) = !s then .lt else .gt

/-- The order of two values; `none` when one of them is NaN. -/
def cmp : F64 → F64 → Option Ordering
  | nan, _ => none
  | _, nan => none
  | inf s, inf t => some (if s = t then .eq else if s then .lt else .gt)
  | inf s, fin _ _ _ => some (if s then .lt else .gt)
  | fin _ _ _, inf t => some (if t then .gt else .lt)
  | fin s m e, fin t n f => some (cmpFin s m e t n f)

/-- The comparison `<`: false when an operand is NaN. -/
def lt (a b : F64) : Bool :=
  match cmp a b with
  | some .lt => true
  | _ => false

/-- The comparison `<=`: false when an operand is NaN. -/
def le (a b : F64) : Bool :=
  match cmp a b with
  | some .lt => true
  | some .eq => true
  | _ => false

/-- The comparison `==`: false when an operand is NaN, true of `+0` and `-0`. -/
def eq (a b : F64) : Bool :=
  match cmp a b with
  | some .eq => true
  | _ => false

/-- The values `+0` and `-0`. -/
def isZero : F64 → Bool
  | fin _ m _ => m == 0
  | _ => false

end F64

/-- The two libm functions of the program that IEEE-754 does not determine, with what
C (Annex F) fixes of them: NaN in, NaN out, and `acos` of an argument above 1 or below -1
(the infinities included) is NaN. -/
class Libm where
  tan : F64 → F64
  acos : F64 → F64
  tan_nan : tan .nan = .nan
  acos_nan : acos .nan = .nan
  acos_gt_one : ∀ x, F64.lt (F64.ofNat 1) x = true → acos x = .nan
  acos_lt_neg_one : ∀ x, F64.lt x (F64.neg (F64.ofNat 1)) = true → acos x = .nan

/-- Machine doubles, for any libm. -/
instance F64.instFlt [Libm] : Flt F64 where
  add := F64.add
  sub := F64.sub
  mul := F64.mul
  div := F64.div
  neg := F64.neg
  lit := F64.ofNat
  sqrt := F64.sqrt
  sqrtf := F64.sqrtf
  tan := Libm.tan
  acos := Libm.acos
  le := F64.le
  lt := F64.lt
  eq := F64.eq

/-- A libm that answers NaN everywhere; it shows that `Libm` is inhabited. -/
def Libm.allNaN : Libm where
  tan _ := .nan
  acos _ := .nan
  tan_nan := rfl
  acos_nan := rfl
  acos_gt_one _ _ := rfl
  acos_lt_neg_one _ _ := rfl

/-- A storage for the constructor in which every member holds NaN. -/
def Horizon.blank64 : Horizon F64 :=
  { scale := ⟨.nan, .nan, .nan⟩, scaleInv := ⟨.nan, .nan, .nan⟩, eye := ⟨.nan, .nan, .nan⟩,
    eyeUnit := ⟨.nan, .nan, .nan⟩, VC := ⟨.nan, .nan, .nan⟩, VCmag := .nan, VCmag2 := .nan,
    VHmag2 := .nan, coneCos := .nan, coneTan := .nan }

namespace F64

/-- Equal up to the sign of zero: the same value, or two zeros. -/
def same (a b : F64) : Prop := a = b ∨ (isZero a = true ∧ isZero b = true)

/-- A zero or NaN. -/
def zeroOrNan (x : F64) : Prop := isZero x = true ∨ x = nan

/-- The representation every operation returns and every double has exactly one of: a
normal (`2^52 <= m < 2^53`) or a subnormal (`m < 2^52`, `e = -1074`) mantissa-exponent
pair. -/
def isCanonical : F64 → Bool
  | fin _ m e =>
    (decide (2 ^ 52 ≤ m) && decide (m < 2 ^ 53) && decide (-1074 ≤ e) && decide (e ≤ 971)) ||
      (decide (m < 2 ^ 52) && decide (e = -1074))
  | _ => true

end F64

/-- Componentwise equal up to the sign of zero. -/
def Vec3.same (v w : Vec3 F64) : Prop :=
  F64.same v.x w.x ∧ F64.same v.y w.y ∧ F64.same v.z w.z

/-- Every component is in canonical representation. -/
def Vec3.isCanonical (v : Vec3 F64) : Bool :=
  v.x.isCanonical && v.y.isCanonical && v.z.isCanonical

/-- The vector of the doubles nearest to three natural numbers. -/
def Vec3.ofNat (x y z : Nat) : Vec3 F64 := ⟨.ofNat x, .ofNat y, .ofNat z⟩

/-- On machine doubles: a `Horizon` constructed from the ellipsoid `(Req, Rpol)` and then
given `setEye(eye)`. -/
def Horizon.configured64 [Libm] (Req Rpol : Nat) (eye : Vec3 F64) : Horizon F64 :=
  (Horizon.new Horizon.blank64 ⟨.ofNat Req, .ofNat Rpol⟩).setEye eye

/-- The quarter turn about the polar (z) axis: the rotation `[[c,-s,0],[s,c,0],[0,0,1]]`
with `c = 0`, `s = 1`. -/
def Vec3.rot90 {α : Type} [Flt α] (v : Vec3 α) : Vec3 α := ⟨-v.y, v.x, v.z⟩

/-- The argument of the `sqrt` of Stage 2 (line 124): `VT*VT - a*a` for `VT = target - _eye`
and `a = VT * -_eyeUnit`. -/
def Horizon.stage2Radicand {α : Type} [Flt α] (h : Horizon α) (target : Vec3 α) : α :=
  let VT := Vec3.sub target h.eye
  let a := Vec3.dot VT (Vec3.neg h.eyeUnit)
  Vec3.dot VT VT - a * a

/-! ## Arithmetic of `Dbl` -/

namespace Dbl

@[simp] theorem add_fin (a b : ℝ) : (fin a + fin b : Dbl) = fin (a + b) := rfl
@[simp] theorem sub_fin (a b : ℝ) : (fin a - fin b : Dbl) = fin (a - b) := rfl
@[simp] theorem mul_fin (a b : ℝ) : (fin a * fin b : Dbl) = fin (a * b) := rfl
@[simp] theorem neg_fin (a : ℝ) : (-(fin a) : Dbl) = fin (-a) := rfl
@[simp] theorem div_fin (a b : ℝ) :
    (fin a / fin b : Dbl) = if b = 0 then nan else fin (a / b) := rfl
@[simp] theorem lit_eq (n : Nat) : (Flt.lit n : Dbl) = fin (n : ℝ) := rfl
@[simp] theorem sqrt_fin (a : ℝ) :
    (Flt.sqrt (fin a) : Dbl) = if a < 0 then nan else fin (Real.sqrt a) := rfl
@[simp] theorem tan_fin (a : ℝ) :
    (Flt.tan (fin a) : Dbl) = if Real.cos a = 0 then nan else fin (Real.tan a) := rfl
@[simp] theorem acos_fin (a : ℝ) :
    (Flt.acos (fin a) : Dbl) = if -1 ≤ a ∧ a ≤ 1 then fin (Real.arccos a) else nan := rfl
@[simp] theorem le_fin (a b : ℝ) : Flt.le (fin a) (fin b) = decide (a ≤ b) := rfl
@[simp] theorem lt_fin (a b : ℝ) : Flt.lt (fin a) (fin b) = decide (a < b) := rfl
@[simp] theorem eq_fin (a b : ℝ) : Flt.eq (fin a) (fin b) = decide (a = b) := rfl

@[simp] theorem nan_add (a : Dbl) : nan + a = nan := rfl
@[simp] theorem add_nan (a : Dbl) : a + nan = nan := by cases a <;> rfl
@[simp] theorem nan_sub (a : Dbl) : nan - a = nan := rfl
@[simp] theorem sub_nan (a : Dbl) : a - nan = nan := by cases a <;> rfl
@[simp] theorem nan_mul (a : Dbl) : nan * a = nan := rfl
@[simp] theorem mul_nan (a : Dbl) : a * nan = nan := by cases a <;> rfl
@[simp] theorem nan_div (a : Dbl) : nan / a = nan := rfl
@[simp] theorem div_nan (a : Dbl) : a / nan = nan := by cases a <;> rfl
@[simp] theorem neg_nan : (-(nan) : Dbl) = nan := rfl
@[simp] theorem sqrt_nan : (Flt.sqrt nan : Dbl) = nan := rfl
@[simp] theorem sqrtf_fin (a : ℝ) :
    (Flt.sqrtf (fin a) : Dbl) = if a < 0 then nan else fin (Real.sqrt a) := rfl
@[simp] theorem sqrtf_nan : (Flt.sqrtf nan : Dbl) = nan := rfl
@[simp] theorem tan_nan : (Flt.tan nan : Dbl) = nan := rfl
@[simp] theorem acos_nan : (Flt.acos nan : Dbl) = nan := rfl
@[simp] theorem nan_le (a : Dbl) : Flt.le nan a = false := rfl
@[simp] theorem le_nan (a : Dbl) : Flt.le a nan = false := by cases a <;> rfl
@[simp] theorem nan_lt (a : Dbl) : Flt.lt nan a = false := rfl
@[simp] theorem lt_nan (a : Dbl) : Flt.lt a nan = false := by cases a <;> rfl
@[simp] theorem nan_eq (a : Dbl) : Flt.eq nan a = false := rfl
@[simp] theorem eq_nan (a : Dbl) : Flt.eq a nan = false := by cases a <;> rfl

end Dbl

/-! ## The state written by `setEye` -/

namespace Horizon

theorem setEye_eq (h : Horizon Dbl) (eye : Vec3 Dbl) :
    h.setEye eye = if Vec3.ne eye h.eye then recompute h.scale h.scaleInv eye else h := by
  unfold setEye recompute
  split <;> rfl

end Horizon

namespace Horizon

theorem new_eq (mem : Horizon Dbl) (Req Rpol : ℝ) :
    Horizon.new mem (EllipsoidModel.ofReal Req Rpol) =
      recompute (Vec3.mk (Flt.lit 1 / .fin Req) (Flt.lit 1 / .fin Req) (Flt.lit 1 / .fin Rpol))
        (Vec3.mk (.fin Req) (.fin Req) (.fin Rpol))
        (Vec3.mk (.fin 10000000) (.fin 0) (.fin 0)) := by
  simp [Horizon.new, setEllipsoid, setEye_eq, Vec3.ne, Vec3.zero, EllipsoidModel.ofReal]

theorem eq_of_ne_false (v : Vec3 ℝ) (w : Vec3 Dbl) (h : Vec3.ne v.toDbl w = false) :
    w = v.toDbl := by
  obtain ⟨a, b, c⟩ := w
  obtain ⟨x, y, z⟩ := v
  cases a <;> cases b <;> cases c <;> simp [Vec3.ne, Vec3.toDbl] at h ⊢
  obtain ⟨⟨h1, h2⟩, h3⟩ := h
  exact ⟨h1.symm, h2.symm, h3.symm⟩

theorem setEye_recompute (sc si e0 : Vec3 Dbl) (eye : Vec3 ℝ) :
    (recompute sc si e0).setEye eye.toDbl = recompute sc si eye.toDbl := by
  rw [setEye_eq]
  split
  · rfl
  · next hne =>
    have he : e0 = eye.toDbl := eq_of_ne_false eye e0 (by simpa [recompute] using hne)
    rw [he]

theorem configured_eq (mem : Horizon Dbl) (Req Rpol : ℝ) (eye : Vec3 ℝ) :
    configured mem Req Rpol eye =
      recompute (Vec3.mk (Flt.lit 1 / .fin Req) (Flt.lit 1 / .fin Req) (Flt.lit 1 / .fin Rpol))
        (Vec3.mk (.fin Req) (.fin Req) (.fin Rpol)) eye.toDbl := by
  rw [configured, new_eq, setEye_recompute]

end Horizon

theorem scaledMag2_nonneg (Req Rpol : ℝ) (eye : Vec3 ℝ) : 0 ≤ scaledMag2 Req Rpol eye := by
  unfold scaledMag2
  positivity

theorem scaledMag2_eq (Req Rpol : ℝ) (eye : Vec3 ℝ) :
    -eye.x * (1 / Req) * (-eye.x * (1 / Req)) + -eye.y * (1 / Req) * (-eye.y * (1 / Req)) +
      -eye.z * (1 / Rpol) * (-eye.z * (1 / Rpol)) = scaledMag2 Req Rpol eye := by
  unfold scaledMag2
  ring

namespace Horizon

variable (mem : Horizon Dbl) (Req Rpol : ℝ) (eye : Vec3 ℝ)

theorem configured_scale (hq : Req ≠ 0) (hp : Rpol ≠ 0) :
    (configured mem Req Rpol eye).scale = ⟨.fin (1 / Req), .fin (1 / Req), .fin (1 / Rpol)⟩ := by
  simp [configured_eq, recompute, hq, hp]

theorem configured_scaleInv :
    (configured mem Req Rpol eye).scaleInv = ⟨.fin Req, .fin Req, .fin Rpol⟩ := by
  simp [configured_eq, recompute]

theorem configured_eye : (configured mem Req Rpol eye).eye = eye.toDbl := by
  simp [configured_eq, recompute]

theorem configured_VC (hq : Req ≠ 0) (hp : Rpol ≠ 0) :
    (configured mem Req Rpol eye).VC =
      ⟨.fin (-eye.x * (1 / Req)), .fin (-eye.y * (1 / Req)), .fin (-eye.z * (1 / Rpol))⟩ := by
  simp [configured_eq, recompute, hq, hp, Vec3.componentMultiply, Vec3.neg, Vec3.toDbl]

theorem configured_VCmag (hq : Req ≠ 0) (hp : Rpol ≠ 0) :
    (configured mem Req Rpol eye).VCmag = .fin (Real.sqrt (scaledMag2 Req Rpol eye)) := by
  have h0 := scaledMag2_nonneg Req Rpol eye
  simp only [configured_eq, recompute, Vec3.componentMultiply, Vec3.neg, Vec3.toDbl,
    Vec3.length, Dbl.lit_eq, Dbl.div_fin, if_neg hq, if_neg hp, Dbl.neg_fin, Dbl.mul_fin,
    Dbl.add_fin, Dbl.sqrt_fin, Nat.cast_one, scaledMag2_eq, if_neg (not_lt.mpr h0)]

theorem configured_VCmag2 (hq : Req ≠ 0) (hp : Rpol ≠ 0) :
    (configured mem Req Rpol eye).VCmag2 = .fin (scaledMag2 Req Rpol eye) := by
  have h0 := scaledMag2_nonneg Req Rpol eye
  simp only [configured_eq, recompute, Vec3.componentMultiply, Vec3.neg, Vec3.toDbl,
    Vec3.length, Dbl.lit_eq, Dbl.div_fin, if_neg hq, if_neg hp, Dbl.neg_fin, Dbl.mul_fin,
    Dbl.add_fin, Dbl.sqrt_fin, Nat.cast_one, scaledMag2_eq, if_neg (not_lt.mpr h0),
    Real.mul_self_sqrt h0]

theorem configured_VHmag2 (hq : Req ≠ 0) (hp : Rpol ≠ 0) :
    (configured mem Req Rpol eye).VHmag2 = .fin (scaledMag2 Req Rpol eye - 1) := by
  have h0 := scaledMag2_nonneg Req Rpol eye
  simp only [configured_eq, recompute, Vec3.componentMultiply, Vec3.neg, Vec3.toDbl,
    Vec3.length, Dbl.lit_eq, Dbl.div_fin, if_neg hq, if_neg hp, Dbl.neg_fin, Dbl.mul_fin,
    Dbl.add_fin, Dbl.sqrt_fin, Dbl.sqrtf_fin, Dbl.sub_fin, Nat.cast_one, scaledMag2_eq,
    if_neg (not_lt.mpr h0), Real.mul_self_sqrt h0]

/-- With the eye on or outside the ellipsoid the test leaves through the first or the
second `return`: the vector of the horizon-plane test is the default-constructed one. -/
theorem isVisibleExit_of_one_le (hq : Req ≠ 0) (hp : Rpol ≠ 0)
    (ho : 1 ≤ scaledMag2 Req Rpol eye) (target : Vec3 Dbl) (radius : Dbl) :
    (configured mem Req Rpol eye).isVisibleExit target radius =
      if Flt.le (.fin Req) radius || Flt.le (.fin Req) radius || Flt.le (.fin Rpol) radius
      then .stage0 else .stage1 := by
  unfold isVisibleExit
  rw [configured_scaleInv, configured_scale _ _ _ _ hq hp, configured_VC _ _ _ _ hq hp,
    configured_VHmag2 _ _ _ _ hq hp]
  split
  · rfl
  · have : (0 : ℝ) ≤ scaledMag2 Req Rpol eye - 1 := by linarith
    simp [Vec3.componentMultiply, Vec3.dot, Vec3.zero, this]

end Horizon

/-! ## The cone parameters -/

/-- The value `setEye` computes for `coneCos` from `m2 = VCmag2`. -/
theorem coneCos_formula (m2 : ℝ) (h : 1 < m2) :
    (Real.sqrt m2 - 1 / Real.sqrt m2) / Real.sqrt (m2 - 1) =
      Real.sqrt (m2 - 1) / Real.sqrt m2 := by
  have hm : 0 < Real.sqrt m2 := Real.sqrt_pos.mpr (by linarith)
  have hq : 0 < Real.sqrt (m2 - 1) := Real.sqrt_pos.mpr (by linarith)
  have hm2 : Real.sqrt m2 * Real.sqrt m2 = m2 := Real.mul_self_sqrt (by linarith)
  have hq2 : Real.sqrt (m2 - 1) * Real.sqrt (m2 - 1) = m2 - 1 :=
    Real.mul_self_sqrt (by linarith)
  rw [div_eq_div_iff hq.ne.symm hm.ne.symm]
  field_simp
  nlinarith

theorem coneCos_pos (m2 : ℝ) (h : 1 < m2) :
    0 < (Real.sqrt m2 - 1 / Real.sqrt m2) / Real.sqrt (m2 - 1) := by
  rw [coneCos_formula m2 h]
  exact div_pos (Real.sqrt_pos.mpr (by linarith)) (Real.sqrt_pos.mpr (by linarith))

theorem coneCos_lt_one (m2 : ℝ) (h : 1 < m2) :
    (Real.sqrt m2 - 1 / Real.sqrt m2) / Real.sqrt (m2 - 1) < 1 := by
  rw [coneCos_formula m2 h, div_lt_one (Real.sqrt_pos.mpr (by linarith))]
  exact Real.sqrt_lt_sqrt (by linarith) (by linarith)

theorem tan_arccos_pos (x : ℝ) (h0 : 0 < x) (h1 : x < 1) : 0 < Real.tan (Real.arccos x) := by
  rw [Real.tan_arccos]
  apply div_pos _ h0
  apply Real.sqrt_pos.mpr
  nlinarith

namespace Horizon

variable (mem : Horizon Dbl) (Req Rpol : ℝ) (eye : Vec3 ℝ)

theorem configured_coneCos (hq : Req ≠ 0) (hp : Rpol ≠ 0) (ho : 1 < scaledMag2 Req Rpol eye) :
    (configured mem Req Rpol eye).coneCos =
      .fin ((Real.sqrt (scaledMag2 Req Rpol eye) - 1 / Real.sqrt (scaledMag2 Req Rpol eye)) /
        Real.sqrt (scaledMag2 Req Rpol eye - 1)) := by
  have h0 := scaledMag2_nonneg Req Rpol eye
  have hm : Real.sqrt (scaledMag2 Req Rpol eye) ≠ 0 := (Real.sqrt_pos.mpr (by linarith)).ne.symm
  have hv : Real.sqrt (scaledMag2 Req Rpol eye - 1) ≠ 0 :=
    (Real.sqrt_pos.mpr (by linarith)).ne.symm
  have h1 : ¬ scaledMag2 Req Rpol eye - 1 < 0 := by linarith
  simp only [configured_eq, recompute, Vec3.componentMultiply, Vec3.neg, Vec3.toDbl,
    Vec3.length, Dbl.lit_eq, Dbl.div_fin, if_neg hq, if_neg hp, Dbl.neg_fin, Dbl.mul_fin,
    Dbl.add_fin, Dbl.sqrt_fin, Dbl.sqrtf_fin, Dbl.sub_fin, Nat.cast_one, scaledMag2_eq,
    if_neg (not_lt.mpr h0), Real.mul_self_sqrt h0, if_neg hm, if_neg hv, if_neg h1]

theorem configured_coneTan (hq : Req ≠ 0) (hp : Rpol ≠ 0) (ho : 1 < scaledMag2 Req Rpol eye) :
    (configured mem Req Rpol eye).coneTan =
      .fin (Real.tan (Real.arccos
        ((Real.sqrt (scaledMag2 Req Rpol eye) - 1 / Real.sqrt (scaledMag2 Req Rpol eye)) /
          Real.sqrt (scaledMag2 Req Rpol eye - 1)))) := by
  have hc := configured_coneCos mem Req Rpol eye hq hp ho
  have hpos := coneCos_pos _ ho
  have hlt := coneCos_lt_one _ ho
  have e : (configured mem Req Rpol eye).coneTan =
      Flt.tan (Flt.acos (configured mem Req Rpol eye).coneCos) := by
    simp only [configured_eq, recompute]
  rw [e, hc, Dbl.acos_fin, if_pos ⟨by linarith, hlt.le⟩, Dbl.tan_fin,
    Real.cos_arccos (by linarith) hlt.le, if_neg hpos.ne.symm]

end Horizon

theorem sumsq_nonneg (a b c : ℝ) : 0 ≤ a * a + b * b + c * c :=
  add_nonneg (add_nonneg (mul_self_nonneg a) (mul_self_nonneg b)) (mul_self_nonneg c)

theorem Vec3.norm_pos (v : Vec3 ℝ) (hv : v ≠ ⟨0, 0, 0⟩) : 0 < v.norm := by
  obtain ⟨x, y, z⟩ := v
  apply Real.sqrt_pos.mpr
  by_contra hc
  have hx : x * x + y * y + z * z = 0 :=
    le_antisymm (not_lt.mp hc) (sumsq_nonneg x y z)
  have h1 : x = 0 := by nlinarith [mul_self_nonneg x, mul_self_nonneg y, mul_self_nonneg z]
  have h2 : y = 0 := by nlinarith [mul_self_nonneg x, mul_self_nonneg y, mul_self_nonneg z]
  have h3 : z = 0 := by nlinarith [mul_self_nonneg x, mul_self_nonneg y, mul_self_nonneg z]
  exact hv (by rw [h1, h2, h3])

theorem Vec3.normalize_toDbl (v : Vec3 ℝ) (hv : v ≠ ⟨0, 0, 0⟩) :
    Vec3.normalize v.toDbl =
      ⟨.fin (v.x * (1 / v.norm)), .fin (v.y * (1 / v.norm)), .fin (v.z * (1 / v.norm))⟩ := by
  have hn := Vec3.norm_pos v hv
  have h0 : ¬ v.x * v.x + v.y * v.y + v.z * v.z < 0 := not_lt.mpr (sumsq_nonneg _ _ _)
  unfold Vec3.norm at hn
  simp only [Vec3.normalize, Vec3.length, Vec3.toDbl, Dbl.mul_fin, Dbl.add_fin, Dbl.sqrt_fin,
    if_neg h0, Dbl.lit_eq, Dbl.lt_fin, Nat.cast_zero, Nat.cast_one, decide_eq_true hn, if_true,
    Dbl.div_fin, if_neg hn.ne.symm, Vec3.norm]

namespace Horizon

variable (mem : Horizon Dbl) (Req Rpol : ℝ) (eye : Vec3 ℝ)

theorem configured_eyeUnit (he : eye ≠ ⟨0, 0, 0⟩) :
    (configured mem Req Rpol eye).eyeUnit =
      ⟨.fin (eye.x * (1 / eye.norm)), .fin (eye.y * (1 / eye.norm)),
        .fin (eye.z * (1 / eye.norm))⟩ := by
  rw [← Vec3.normalize_toDbl eye he]
  simp only [configured_eq, recompute]

end Horizon

theorem sqrt_four : Real.sqrt 4 = 2 := by
  rw [Real.sqrt_eq_iff_mul_self_eq_of_pos (by norm_num)]
  norm_num

theorem scaledMag2_unit_two : scaledMag2 1 1 ⟨2, 0, 0⟩ = 4 := by
  norm_num [scaledMag2]

theorem Vec3.two_ne_zero : (⟨2, 0, 0⟩ : Vec3 ℝ) ≠ ⟨0, 0, 0⟩ := by
  intro h
  have := congrArg Vec3.x h
  norm_num at this

theorem Vec3.norm_two : Vec3.norm ⟨2, 0, 0⟩ = 2 := by
  simp only [Vec3.norm]
  norm_num [sqrt_four]

/-- With the eye on or outside the ellipsoid every query answers "visible". -/
theorem Horizon.isVisible_of_one_le (mem : Horizon Dbl) (Req Rpol : ℝ) (eye : Vec3 ℝ)
    (hq : Req ≠ 0) (hp : Rpol ≠ 0) (ho : 1 ≤ scaledMag2 Req Rpol eye) (target : Vec3 Dbl)
    (radius : Dbl) : (Horizon.configured mem Req Rpol eye).isVisible target radius = true := by
  rw [Horizon.isVisible, Horizon.isVisibleExit_of_one_le mem Req Rpol eye hq hp ho]
  split <;> rfl

/-- With the eye strictly outside the ellipsoid the cone parameters are real numbers,
`0 < coneCos < 1` and `0 < coneTan`. -/
theorem Horizon.configured_cone_outside (mem : Horizon Dbl) (Req Rpol : ℝ) (eye : Vec3 ℝ)
    (hq : Req ≠ 0) (hp : Rpol ≠ 0) (ho : 1 < scaledMag2 Req Rpol eye) :
    ∃ C T : ℝ, (Horizon.configured mem Req Rpol eye).coneCos = .fin C ∧
      (Horizon.configured mem Req Rpol eye).coneTan = .fin T ∧ 0 < C ∧ C < 1 ∧ 0 < T :=
  ⟨_, _, Horizon.configured_coneCos mem Req Rpol eye hq hp ho,
    Horizon.configured_coneTan mem Req Rpol eye hq hp ho, coneCos_pos _ ho,
    coneCos_lt_one _ ho, tan_arccos_pos _ (coneCos_pos _ ho) (coneCos_lt_one _ ho)⟩

/-! ## The claims -/

/-- C1 (the code departs from it): on the unit sphere with the eye at (2,0,0), strictly
outside, the target (-1,0,0) and radius 0, neither Stage 1 on the radius-adjusted vector nor
Stage 2 answers "visible", yet `isVisible` returns true; the vector of its Stage 1 dot
product is the zero vector. -/
theorem Horizon.isVisible_not_two_stage_test (mem : Horizon Dbl) :
    1 < scaledMag2 1 1 ⟨2, 0, 0⟩ ∧
    (Horizon.configured mem 1 1 ⟨2, 0, 0⟩).stage1Spec (Vec3.toDbl ⟨-1, 0, 0⟩) (.fin 0) = false ∧
    (Horizon.configured mem 1 1 ⟨2, 0, 0⟩).stage2Spec (Vec3.toDbl ⟨-1, 0, 0⟩) (.fin 0) = false ∧
    (Horizon.configured mem 1 1 ⟨2, 0, 0⟩).isVisible (Vec3.toDbl ⟨-1, 0, 0⟩) (.fin 0) = true ∧
    Vec3.componentMultiply Vec3.zero (Horizon.configured mem 1 1 ⟨2, 0, 0⟩).scale =
      ⟨.fin 0, .fin 0, .fin 0⟩ := by
  have hs := scaledMag2_unit_two
  have ho : 1 < scaledMag2 1 1 ⟨2, 0, 0⟩ := by rw [hs]; norm_num
  obtain ⟨C, T, hC, hT, cpos, -, tpos⟩ :=
    Horizon.configured_cone_outside mem 1 1 ⟨2, 0, 0⟩ one_ne_zero one_ne_zero ho
  have hU := Horizon.configured_eyeUnit mem 1 1 ⟨2, 0, 0⟩ Vec3.two_ne_zero
  have hE := Horizon.configured_eye mem 1 1 ⟨2, 0, 0⟩
  have hS := Horizon.configured_scale mem 1 1 ⟨2, 0, 0⟩ one_ne_zero one_ne_zero
  have hV := Horizon.configured_VC mem 1 1 ⟨2, 0, 0⟩ one_ne_zero one_ne_zero
  have hH := Horizon.configured_VHmag2 mem 1 1 ⟨2, 0, 0⟩ one_ne_zero one_ne_zero
  refine ⟨ho, ?_, ?_, ?_, ?_⟩
  · unfold Horizon.stage1Spec
    rw [hE, hS, hV, hH, hs]
    simp [Vec3.sub, Vec3.toDbl, Vec3.normalize, Vec3.length, Vec3.smul, Vec3.componentMultiply,
      Vec3.dot]
    norm_num
  · unfold Horizon.stage2Spec
    rw [hE, hU, hC, hT, Vec3.norm_two]
    have h9 : ¬ ((-1 - 2) * (-1 - 2) : ℝ) < (2 + 1) * (2 + 1) := by norm_num
    simp [Vec3.sub, Vec3.toDbl, Vec3.dot, Vec3.neg, h9]
    have h0 : ((-1 - 2) * (-1 - 2) - (2 + 1) * (2 + 1) : ℝ) = 0 := by norm_num
    rw [h0, Real.sqrt_zero]
    nlinarith
  · exact Horizon.isVisible_of_one_le mem 1 1 _ one_ne_zero one_ne_zero ho.le _ _
  · rw [hS]
    simp [Vec3.componentMultiply, Vec3.zero]

/-- C2 (the code departs from it): on the unit sphere with the eye at (2,0,0) the antipodal
surface point (-1,0,0) and the point (-4,0,0) behind it, both with radius 0, are reported
visible, through the `return` of the horizon-plane test. -/
theorem Horizon.isVisible_far_side (mem : Horizon Dbl) :
    (Horizon.configured mem 1 1 ⟨2, 0, 0⟩).isVisibleExit (Vec3.toDbl ⟨-1, 0, 0⟩) (.fin 0) =
      .stage1 ∧
    (Horizon.configured mem 1 1 ⟨2, 0, 0⟩).isVisible (Vec3.toDbl ⟨-1, 0, 0⟩) (.fin 0) = true ∧
    (Horizon.configured mem 1 1 ⟨2, 0, 0⟩).isVisible (Vec3.toDbl ⟨-4, 0, 0⟩) (.fin 0) = true := by
  have ho : 1 ≤ scaledMag2 1 1 ⟨2, 0, 0⟩ := by rw [scaledMag2_unit_two]; norm_num
  refine ⟨?_, Horizon.isVisible_of_one_le mem 1 1 _ one_ne_zero one_ne_zero ho _ _,
    Horizon.isVisible_of_one_le mem 1 1 _ one_ne_zero one_ne_zero ho _ _⟩
  rw [Horizon.isVisibleExit_of_one_le mem 1 1 _ one_ne_zero one_ne_zero ho]
  norm_num

/-- C3: on the unit sphere with the eye at (2,0,0), `isVisible((1,0,0), 0)` and
`isVisible((0,0,0), 0)` return true, both through the `return` of the Stage 1
horizon-plane test. -/
theorem Horizon.isVisible_near_and_centre (mem : Horizon Dbl) :
    (Horizon.configured mem 1 1 ⟨2, 0, 0⟩).isVisible (Vec3.toDbl ⟨1, 0, 0⟩) (.fin 0) = true ∧
    (Horizon.configured mem 1 1 ⟨2, 0, 0⟩).isVisibleExit (Vec3.toDbl ⟨1, 0, 0⟩) (.fin 0) =
      .stage1 ∧
    (Horizon.configured mem 1 1 ⟨2, 0, 0⟩).isVisible (Vec3.toDbl ⟨0, 0, 0⟩) (.fin 0) = true ∧
    (Horizon.configured mem 1 1 ⟨2, 0, 0⟩).isVisibleExit (Vec3.toDbl ⟨0, 0, 0⟩) (.fin 0) =
      .stage1 := by
  have ho : 1 ≤ scaledMag2 1 1 ⟨2, 0, 0⟩ := by rw [scaledMag2_unit_two]; norm_num
  refine ⟨Horizon.isVisible_of_one_le mem 1 1 _ one_ne_zero one_ne_zero ho _ _, ?_,
    Horizon.isVisible_of_one_le mem 1 1 _ one_ne_zero one_ne_zero ho _ _, ?_⟩ <;>
  · rw [Horizon.isVisibleExit_of_one_le mem 1 1 _ one_ne_zero one_ne_zero ho]
    norm_num

/-- The three tests of `isVisible`, in the order the code makes them. -/
theorem Horizon.isVisible_eq {α : Type} [Flt α] (h : Horizon α) (target : Vec3 α) (radius : α) :
    h.isVisible target radius =
      ((Flt.le h.scaleInv.x radius || Flt.le h.scaleInv.y radius ||
          Flt.le h.scaleInv.z radius) ||
        Flt.le (Vec3.dot (Vec3.componentMultiply Vec3.zero h.scale) h.VC) h.VHmag2 ||
        h.stage2Spec target radius) := by
  unfold Horizon.isVisible Horizon.isVisibleExit Horizon.stage2Spec
  by_cases h0 : (Flt.le h.scaleInv.x radius || Flt.le h.scaleInv.y radius ||
      Flt.le h.scaleInv.z radius) = true
  · simp [h0, Exit.result]
  · by_cases h1 :
        Flt.le (Vec3.dot (Vec3.componentMultiply Vec3.zero h.scale) h.VC) h.VHmag2 = true
    · simp [h0, h1, Exit.result]
    · by_cases h2 : Flt.lt (-radius)
          ((Flt.sqrt (Vec3.dot (Vec3.sub target h.eye) (Vec3.sub target h.eye) -
                Vec3.dot (Vec3.sub target h.eye) (Vec3.neg h.eyeUnit) *
                  Vec3.dot (Vec3.sub target h.eye) (Vec3.neg h.eyeUnit)) -
              Vec3.dot (Vec3.sub target h.eye) (Vec3.neg h.eyeUnit) * h.coneTan) *
            h.coneCos) = true
      · simp [h0, h1, h2, Exit.result]
      · simp [h0, h1, h2, Exit.result]

theorem Dbl.le_mono (s : Dbl) (r1 r2 : ℝ) (h12 : r1 ≤ r2) (h : Flt.le s (.fin r1) = true) :
    Flt.le s (.fin r2) = true := by
  cases s with
  | nan => simp at h
  | fin a =>
    simp only [Dbl.le_fin, decide_eq_true_eq] at h ⊢
    linarith

theorem Dbl.lt_neg_mono (e : Dbl) (r1 r2 : ℝ) (h12 : r1 ≤ r2)
    (h : Flt.lt (-(Dbl.fin r1)) e = true) : Flt.lt (-(Dbl.fin r2)) e = true := by
  cases e with
  | nan => simp at h
  | fin a =>
    simp only [Dbl.neg_fin, Dbl.lt_fin, decide_eq_true_eq] at h ⊢
    linarith

/-- In any state whatever, a larger radius keeps a "visible" answer. -/
theorem Horizon.isVisible_mono (h : Horizon Dbl) (target : Vec3 Dbl) (r1 r2 : ℝ)
    (h12 : r1 ≤ r2) (hv : h.isVisible target (.fin r1) = true) :
    h.isVisible target (.fin r2) = true := by
  rw [Horizon.isVisible_eq] at hv ⊢
  simp only [Bool.or_eq_true] at hv ⊢
  rcases hv with (((hx | hy) | hz) | h1) | h2
  · exact Or.inl (Or.inl (Or.inl (Or.inl (Dbl.le_mono _ _ _ h12 hx))))
  · exact Or.inl (Or.inl (Or.inl (Or.inr (Dbl.le_mono _ _ _ h12 hy))))
  · exact Or.inl (Or.inl (Or.inr (Dbl.le_mono _ _ _ h12 hz)))
  · exact Or.inl (Or.inr h1)
  · exact Or.inr (Dbl.lt_neg_mono _ _ _ h12 h2)

/-- C5: for an ellipsoid with positive radii, any eye given to `setEye`, any target and
radii `0 ≤ r1 ≤ r2`, if `isVisible(target, r1)` is true then `isVisible(target, r2)` is
true. -/
theorem Horizon.isVisible_radius_monotone (mem : Horizon Dbl) (Req Rpol : ℝ)
    (eye target : Vec3 ℝ) (r1 r2 : ℝ) (_hq : 0 < Req) (_hp : 0 < Rpol) (_h1 : 0 ≤ r1)
    (h12 : r1 ≤ r2)
    (hv : (Horizon.configured mem Req Rpol eye).isVisible target.toDbl (.fin r1) = true) :
    (Horizon.configured mem Req Rpol eye).isVisible target.toDbl (.fin r2) = true :=
  Horizon.isVisible_mono _ _ r1 r2 h12 hv

/-- C5 at the unit sphere, eye (2,0,0), target (1,0,0), radii 0 and 1/2. -/
theorem Horizon.isVisible_radius_monotone_witness :
    (0 : ℝ) < 1 ∧ (0 : ℝ) ≤ 0 ∧ (0 : ℝ) ≤ 1 / 2 ∧
      (Horizon.configured Horizon.blank 1 1 ⟨2, 0, 0⟩).isVisible (Vec3.toDbl ⟨1, 0, 0⟩)
        (.fin 0) = true ∧
      (Horizon.configured Horizon.blank 1 1 ⟨2, 0, 0⟩).isVisible (Vec3.toDbl ⟨1, 0, 0⟩)
        (.fin (1 / 2)) = true :=
  have hv : (Horizon.configured Horizon.blank 1 1 ⟨2, 0, 0⟩).isVisible (Vec3.toDbl ⟨1, 0, 0⟩)
      (.fin 0) = true :=
    Horizon.isVisible_of_one_le _ 1 1 _ one_ne_zero one_ne_zero
      (by rw [scaledMag2_unit_two]; norm_num) _ _
  ⟨by norm_num, le_refl _, by norm_num, hv,
    Horizon.isVisible_radius_monotone Horizon.blank 1 1 ⟨2, 0, 0⟩ ⟨1, 0, 0⟩ 0 (1 / 2)
      (by norm_num) (by norm_num) (le_refl _) (by norm_num) hv⟩

/-- C10: `setEye` is idempotent, for every state and every eye, whatever the scalar type:
a second `setEye` with the same eye leaves all ten members as the first call left them. -/
theorem Horizon.setEye_idempotent {α : Type} [Flt α] (h : Horizon α) (eye : Vec3 α) :
    (h.setEye eye).setEye eye = h.setEye eye := by
  by_cases hne : Vec3.ne eye h.eye = true
  · have h1 : h.setEye eye = Horizon.recompute h.scale h.scaleInv eye := by
      unfold Horizon.setEye Horizon.recompute
      rw [if_pos hne]
    rw [h1]
    unfold Horizon.setEye
    split <;> rfl
  · have h1 : h.setEye eye = h := by
      unfold Horizon.setEye
      rw [if_neg hne]
    rw [h1, h1]

/-! ## The horizon plane -/

theorem scaledMag2_eq_zero_iff (Req Rpol : ℝ) (eye : Vec3 ℝ) (hq : Req ≠ 0) (hp : Rpol ≠ 0) :
    scaledMag2 Req Rpol eye = 0 ↔ eye = ⟨0, 0, 0⟩ := by
  obtain ⟨x, y, z⟩ := eye
  simp only [scaledMag2]
  constructor
  · intro h
    have n1 := sq_nonneg (x / Req)
    have n2 := sq_nonneg (y / Req)
    have n3 := sq_nonneg (z / Rpol)
    have hx : (x / Req) ^ 2 = 0 := by nlinarith
    have hy : (y / Req) ^ 2 = 0 := by nlinarith
    have hz : (z / Rpol) ^ 2 = 0 := by nlinarith
    have hx1 : x = 0 := by
      have := pow_eq_zero_iff (two_ne_zero) |>.mp hx
      rcases div_eq_zero_iff.mp this with h | h
      · exact h
      · exact absurd h hq
    have hy1 : y = 0 := by
      have := pow_eq_zero_iff (two_ne_zero) |>.mp hy
      rcases div_eq_zero_iff.mp this with h | h
      · exact h
      · exact absurd h hq
    have hz1 : z = 0 := by
      have := pow_eq_zero_iff (two_ne_zero) |>.mp hz
      rcases div_eq_zero_iff.mp this with h | h
      · exact h
      · exact absurd h hp
    rw [hx1, hy1, hz1]
  · intro h
    injection h with h1 h2 h3
    rw [h1, h2, h3]
    simp

/-- The plane `getPlane` writes for a non-zero eye. -/
theorem Horizon.getPlane_configured (mem : Horizon Dbl) (Req Rpol : ℝ) (eye : Vec3 ℝ)
    (hq : Req ≠ 0) (hp : Rpol ≠ 0) (he : eye ≠ ⟨0, 0, 0⟩) :
    (Horizon.configured mem Req Rpol eye).getPlane =
      some ⟨⟨.fin (eye.x * (1 / eye.norm)), .fin (eye.y * (1 / eye.norm)),
          .fin (eye.z * (1 / eye.norm))⟩,
        .fin (-Real.sqrt
          (eye.x * (1 / eye.norm) * (1 / Real.sqrt (scaledMag2 Req Rpol eye)) * Req *
              (eye.x * (1 / eye.norm) * (1 / Real.sqrt (scaledMag2 Req Rpol eye)) * Req) +
            eye.y * (1 / eye.norm) * (1 / Real.sqrt (scaledMag2 Req Rpol eye)) * Req *
              (eye.y * (1 / eye.norm) * (1 / Real.sqrt (scaledMag2 Req Rpol eye)) * Req) +
            eye.z * (1 / eye.norm) * (1 / Real.sqrt (scaledMag2 Req Rpol eye)) * Rpol *
              (eye.z * (1 / eye.norm) * (1 / Real.sqrt (scaledMag2 Req Rpol eye)) * Rpol)))⟩ := by
  have hm0 : scaledMag2 Req Rpol eye ≠ 0 := fun h =>
    he ((scaledMag2_eq_zero_iff Req Rpol eye hq hp).mp h)
  have hmpos : 0 < scaledMag2 Req Rpol eye :=
    lt_of_le_of_ne (scaledMag2_nonneg Req Rpol eye) (Ne.symm hm0)
  have hsq : Real.sqrt (scaledMag2 Req Rpol eye) ≠ 0 := (Real.sqrt_pos.mpr hmpos).ne.symm
  unfold Horizon.getPlane
  rw [Horizon.configured_VCmag2 _ _ _ _ hq hp, Horizon.configured_VCmag _ _ _ _ hq hp,
    Horizon.configured_eyeUnit _ _ _ _ he, Horizon.configured_scaleInv]
  simp only [Dbl.lit_eq, Dbl.eq_fin, Nat.cast_zero, Nat.cast_one, decide_eq_false hm0,
    Bool.false_eq_true, if_false, Dbl.div_fin, if_neg hsq, Vec3.smul, Vec3.componentMultiply,
    Vec3.length, Dbl.mul_fin, Dbl.add_fin, Dbl.sqrt_fin, if_neg (not_lt.mpr (sumsq_nonneg _ _ _)),
    Dbl.neg_fin]

/-- The plane equation of `getPlane` at a horizon point, on reals, when every non-zero
coordinate of the eye has the same ellipsoid radius `ρ`. -/
theorem horizon_plane_real (a b ρ x y z px py pz : ℝ) (ha : 0 < a) (hb : 0 < b) (hρ : 0 < ρ)
    (hx : x * a = x * ρ) (hy : y * a = y * ρ) (hz : z * b = z * ρ)
    (hn : 0 < Real.sqrt (x * x + y * y + z * z))
    (hdot : (px * (1 / a)) * (x * (1 / a)) + (py * (1 / a)) * (y * (1 / a)) +
      (pz * (1 / b)) * (z * (1 / b)) = 1) :
    x * (1 / Real.sqrt (x * x + y * y + z * z)) * px +
        y * (1 / Real.sqrt (x * x + y * y + z * z)) * py +
        z * (1 / Real.sqrt (x * x + y * y + z * z)) * pz +
      -Real.sqrt
        (x * (1 / Real.sqrt (x * x + y * y + z * z)) *
              (1 / Real.sqrt ((x / a) ^ 2 + (y / a) ^ 2 + (z / b) ^ 2)) * a *
            (x * (1 / Real.sqrt (x * x + y * y + z * z)) *
              (1 / Real.sqrt ((x / a) ^ 2 + (y / a) ^ 2 + (z / b) ^ 2)) * a) +
          y * (1 / Real.sqrt (x * x + y * y + z * z)) *
              (1 / Real.sqrt ((x / a) ^ 2 + (y / a) ^ 2 + (z / b) ^ 2)) * a *
            (y * (1 / Real.sqrt (x * x + y * y + z * z)) *
              (1 / Real.sqrt ((x / a) ^ 2 + (y / a) ^ 2 + (z / b) ^ 2)) * a) +
          z * (1 / Real.sqrt (x * x + y * y + z * z)) *
              (1 / Real.sqrt ((x / a) ^ 2 + (y / a) ^ 2 + (z / b) ^ 2)) * b *
            (z * (1 / Real.sqrt (x * x + y * y + z * z)) *
              (1 / Real.sqrt ((x / a) ^ 2 + (y / a) ^ 2 + (z / b) ^ 2)) * b)) = 0 := by
  have hn2 : Real.sqrt (x * x + y * y + z * z) * Real.sqrt (x * x + y * y + z * z) =
      x * x + y * y + z * z := Real.mul_self_sqrt (sumsq_nonneg x y z)
  generalize Real.sqrt (x * x + y * y + z * z) = n at hn hn2 ⊢
  have xa : x / a = x / ρ := by rw [div_eq_div_iff ha.ne.symm hρ.ne.symm]; linarith
  have ya : y / a = y / ρ := by rw [div_eq_div_iff ha.ne.symm hρ.ne.symm]; linarith
  have zb : z / b = z / ρ := by rw [div_eq_div_iff hb.ne.symm hρ.ne.symm]; linarith
  have hm : Real.sqrt ((x / a) ^ 2 + (y / a) ^ 2 + (z / b) ^ 2) = n / ρ := by
    rw [xa, ya, zb, Real.sqrt_eq_iff_mul_self_eq_of_pos (div_pos hn hρ)]
    field_simp
    linear_combination ρ ^ 2 * hn2
  rw [hm]
  have tx : x * (1 / n) * (1 / (n / ρ)) * a = x * (ρ * ρ / (n * n)) := by
    have : x * (1 / n) * (1 / (n / ρ)) * a = (x * a) * ((1 / n) * (1 / (n / ρ))) := by ring
    rw [this, hx]
    field_simp
    ring
  have ty : y * (1 / n) * (1 / (n / ρ)) * a = y * (ρ * ρ / (n * n)) := by
    have : y * (1 / n) * (1 / (n / ρ)) * a = (y * a) * ((1 / n) * (1 / (n / ρ))) := by ring
    rw [this, hy]
    field_simp
    ring
  have tz : z * (1 / n) * (1 / (n / ρ)) * b = z * (ρ * ρ / (n * n)) := by
    have : z * (1 / n) * (1 / (n / ρ)) * b = (z * b) * ((1 / n) * (1 / (n / ρ))) := by ring
    rw [this, hz]
    field_simp
    ring
  rw [tx, ty, tz]
  have hS : x * (ρ * ρ / (n * n)) * (x * (ρ * ρ / (n * n))) +
        y * (ρ * ρ / (n * n)) * (y * (ρ * ρ / (n * n))) +
        z * (ρ * ρ / (n * n)) * (z * (ρ * ρ / (n * n))) = (ρ * ρ / n) * (ρ * ρ / n) := by
    have : x * (ρ * ρ / (n * n)) * (x * (ρ * ρ / (n * n))) +
        y * (ρ * ρ / (n * n)) * (y * (ρ * ρ / (n * n))) +
        z * (ρ * ρ / (n * n)) * (z * (ρ * ρ / (n * n))) =
        (x * x + y * y + z * z) * ((ρ * ρ / (n * n)) * (ρ * ρ / (n * n))) := by ring
    rw [this, ← hn2]
    field_simp
    ring
  rw [hS, Real.sqrt_mul_self (div_pos (mul_pos hρ hρ) hn).le]
  have x2 : x * (1 / a) = x / ρ := by rw [← xa]; ring
  have y2 : y * (1 / a) = y / ρ := by rw [← ya]; ring
  have z2 : z * (1 / b) = z / ρ := by rw [← zb]; ring
  have px2 : px * (1 / a) * (x * (1 / a)) = px * (x / ρ) / ρ := by
    have : px * (1 / a) * (x * (1 / a)) = px * ((x * (1 / a)) * (1 / a)) := by ring
    rw [this, x2]
    have : x / ρ * (1 / a) = (x * (1 / a)) / ρ := by ring
    rw [this, x2]
    ring
  have py2 : py * (1 / a) * (y * (1 / a)) = py * (y / ρ) / ρ := by
    have : py * (1 / a) * (y * (1 / a)) = py * ((y * (1 / a)) * (1 / a)) := by ring
    rw [this, y2]
    have : y / ρ * (1 / a) = (y * (1 / a)) / ρ := by ring
    rw [this, y2]
    ring
  have pz2 : pz * (1 / b) * (z * (1 / b)) = pz * (z / ρ) / ρ := by
    have : pz * (1 / b) * (z * (1 / b)) = pz * ((z * (1 / b)) * (1 / b)) := by ring
    rw [this, z2]
    have : z / ρ * (1 / b) = (z * (1 / b)) / ρ := by ring
    rw [this, z2]
    ring
  rw [px2, py2, pz2] at hdot
  have hd : px * x + py * y + pz * z = ρ * ρ := by
    field_simp at hdot
    linarith
  have : x * (1 / n) * px + y * (1 / n) * py + z * (1 / n) * pz =
      (px * x + py * y + pz * z) / n := by ring
  rw [this, hd]
  ring

theorem Vec3.ne_zero_of_one_lt (Req Rpol : ℝ) (eye : Vec3 ℝ)
    (ho : 1 < scaledMag2 Req Rpol eye) : eye ≠ ⟨0, 0, 0⟩ := by
  intro h
  rw [h] at ho
  simp [scaledMag2] at ho
  linarith

/-- C8 (refuted as stated): for the ellipsoid (2, 1) and the eye (2,0,2), strictly outside,
the horizon point (-6/5, 0, 4/5) does not satisfy the equation of the plane `getPlane`
writes. -/
theorem Horizon.getPlane_misses_horizon_point :
    1 < scaledMag2 2 1 ⟨2, 0, 2⟩ ∧ IsHorizonPoint 2 1 ⟨2, 0, 2⟩ ⟨-6 / 5, 0, 4 / 5⟩ ∧
      ∃ pl, (Horizon.configured Horizon.blank 2 1 ⟨2, 0, 2⟩).getPlane = some pl ∧
        Vec3.dot pl.normal (Vec3.toDbl ⟨-6 / 5, 0, 4 / 5⟩) + pl.d ≠ .fin 0 := by
  have ho : 1 < scaledMag2 2 1 ⟨2, 0, 2⟩ := by norm_num [scaledMag2]
  have he := Vec3.ne_zero_of_one_lt 2 1 _ ho
  have hn := Vec3.norm_pos _ he
  refine ⟨ho, ⟨by norm_num, by norm_num⟩, _,
    Horizon.getPlane_configured Horizon.blank 2 1 _ two_ne_zero one_ne_zero he, ?_⟩
  simp only [Vec3.dot, Vec3.toDbl, Dbl.mul_fin, Dbl.add_fin]
  intro hc
  injection hc with hc
  generalize Vec3.norm ⟨2, 0, 2⟩ = n at hn hc
  have h1 : 0 < 1 / n := by positivity
  have h2 := Real.sqrt_nonneg
    (2 * (1 / n) * (1 / Real.sqrt (scaledMag2 2 1 ⟨2, 0, 2⟩)) * 2 *
        (2 * (1 / n) * (1 / Real.sqrt (scaledMag2 2 1 ⟨2, 0, 2⟩)) * 2) +
      0 * (1 / n) * (1 / Real.sqrt (scaledMag2 2 1 ⟨2, 0, 2⟩)) * 2 *
        (0 * (1 / n) * (1 / Real.sqrt (scaledMag2 2 1 ⟨2, 0, 2⟩)) * 2) +
      2 * (1 / n) * (1 / Real.sqrt (scaledMag2 2 1 ⟨2, 0, 2⟩)) * 1 *
        (2 * (1 / n) * (1 / Real.sqrt (scaledMag2 2 1 ⟨2, 0, 2⟩)) * 1))
  linarith

/-- C8 (amended): for an ellipsoid with positive radii that is a sphere, or an eye in the
equatorial plane, or an eye on the polar axis, the eye strictly outside, every horizon
point satisfies `normal·p + offset = 0` for the plane written by `getPlane`. -/
theorem Horizon.getPlane_contains_horizon (mem : Horizon Dbl) (Req Rpol : ℝ) (eye p : Vec3 ℝ)
    (hq : 0 < Req) (hp : 0 < Rpol) (ho : 1 < scaledMag2 Req Rpol eye)
    (hs : Req = Rpol ∨ eye.z = 0 ∨ (eye.x = 0 ∧ eye.y = 0))
    (hh : IsHorizonPoint Req Rpol eye p) :
    ∃ pl, (Horizon.configured mem Req Rpol eye).getPlane = some pl ∧
      Vec3.dot pl.normal p.toDbl + pl.d = .fin 0 := by
  have he := Vec3.ne_zero_of_one_lt Req Rpol eye ho
  have hn := Vec3.norm_pos eye he
  refine ⟨_, Horizon.getPlane_configured mem Req Rpol eye hq.ne.symm hp.ne.symm he, ?_⟩
  simp only [Vec3.dot, Vec3.toDbl, Dbl.mul_fin, Dbl.add_fin, scaledMag2, Vec3.norm]
  congr 1
  unfold Vec3.norm at hn
  rcases hs with h | h | ⟨h1, h2⟩
  · exact horizon_plane_real Req Rpol Req _ _ _ _ _ _ hq hp hq rfl rfl (by rw [h]) hn hh.2
  · exact horizon_plane_real Req Rpol Req _ _ _ _ _ _ hq hp hq rfl rfl (by rw [h]; ring) hn hh.2
  · exact horizon_plane_real Req Rpol Rpol _ _ _ _ _ _ hq hp hp (by rw [h1]; ring)
      (by rw [h2]; ring) rfl hn hh.2

/-- C8 (amended) at the ellipsoid (2, 1), the eye (4,0,0) in the equatorial plane and the
horizon point (1, 0, √3/2). -/
theorem Horizon.getPlane_contains_horizon_witness :
    (0 : ℝ) < 2 ∧ (0 : ℝ) < 1 ∧ 1 < scaledMag2 2 1 ⟨4, 0, 0⟩ ∧
      IsHorizonPoint 2 1 ⟨4, 0, 0⟩ ⟨1, 0, Real.sqrt 3 / 2⟩ ∧
      ∃ pl, (Horizon.configured Horizon.blank 2 1 ⟨4, 0, 0⟩).getPlane = some pl ∧
        Vec3.dot pl.normal (Vec3.toDbl ⟨1, 0, Real.sqrt 3 / 2⟩) + pl.d = .fin 0 :=
  have ho : 1 < scaledMag2 2 1 ⟨4, 0, 0⟩ := by norm_num [scaledMag2]
  have hh : IsHorizonPoint 2 1 ⟨4, 0, 0⟩ ⟨1, 0, Real.sqrt 3 / 2⟩ := by
    have h3 : Real.sqrt 3 * Real.sqrt 3 = 3 := Real.mul_self_sqrt (by norm_num)
    constructor
    · norm_num
      nlinarith
    · norm_num
  ⟨by norm_num, by norm_num, ho, hh,
    Horizon.getPlane_contains_horizon Horizon.blank 2 1 ⟨4, 0, 0⟩ ⟨1, 0, Real.sqrt 3 / 2⟩
      (by norm_num) (by norm_num) ho (Or.inr (Or.inl rfl)) hh⟩

/-! ## Configuration and the derived members -/

/-- C11 (the code departs from it): after the constructor for the ellipsoid (1, 1) and a
second `setEllipsoid` for the ellipsoid (2, 1), the eye is still the placeholder, `scale`
is that of the new ellipsoid, and `VC`, `VCmag2` are those of the old one, not
`(-eye)∘scale` and its squared length. -/
theorem Horizon.setEllipsoid_keeps_stale_members (mem : Horizon Dbl) :
    ((Horizon.new mem (EllipsoidModel.ofReal 1 1)).setEllipsoid (EllipsoidModel.ofReal 2 1)).eye =
        ⟨.fin 10000000, .fin 0, .fin 0⟩ ∧
      ((Horizon.new mem (EllipsoidModel.ofReal 1 1)).setEllipsoid
          (EllipsoidModel.ofReal 2 1)).scale = ⟨.fin (1 / 2), .fin (1 / 2), .fin 1⟩ ∧
      ((Horizon.new mem (EllipsoidModel.ofReal 1 1)).setEllipsoid
          (EllipsoidModel.ofReal 2 1)).VC = ⟨.fin (-10000000), .fin 0, .fin 0⟩ ∧
      Vec3.componentMultiply
          (Vec3.neg ((Horizon.new mem (EllipsoidModel.ofReal 1 1)).setEllipsoid
            (EllipsoidModel.ofReal 2 1)).eye)
          ((Horizon.new mem (EllipsoidModel.ofReal 1 1)).setEllipsoid
            (EllipsoidModel.ofReal 2 1)).scale = ⟨.fin (-5000000), .fin 0, .fin 0⟩ ∧
      ((Horizon.new mem (EllipsoidModel.ofReal 1 1)).setEllipsoid
          (EllipsoidModel.ofReal 2 1)).VCmag2 = .fin 100000000000000 ∧
      ((Horizon.new mem (EllipsoidModel.ofReal 1 1)).setEllipsoid
          (EllipsoidModel.ofReal 2 1)).VHmag2 = .fin 99999999999999 ∧
      ((Horizon.new mem (EllipsoidModel.ofReal 1 1)).setEllipsoid
          (EllipsoidModel.ofReal 2 1)).VC ≠
        Vec3.componentMultiply
          (Vec3.neg ((Horizon.new mem (EllipsoidModel.ofReal 1 1)).setEllipsoid
            (EllipsoidModel.ofReal 2 1)).eye)
          ((Horizon.new mem (EllipsoidModel.ofReal 1 1)).setEllipsoid
            (EllipsoidModel.ofReal 2 1)).scale := by
  have hs : Real.sqrt (10000000 * 10000000) = 10000000 := Real.sqrt_mul_self (by norm_num)
  have e : (Horizon.new mem (EllipsoidModel.ofReal 1 1)).setEllipsoid
      (EllipsoidModel.ofReal 2 1) =
      { Horizon.new mem (EllipsoidModel.ofReal 1 1) with
        scaleInv := ⟨.fin 2, .fin 2, .fin 1⟩,
        scale := ⟨.fin (1 / 2), .fin (1 / 2), .fin 1⟩ } := by
    rw [Horizon.new_eq]
    simp [Horizon.setEllipsoid, Horizon.setEye_eq, Horizon.recompute, Vec3.ne,
      EllipsoidModel.ofReal]
  rw [e, Horizon.new_eq]
  simp [Horizon.recompute, Vec3.componentMultiply, Vec3.neg, Vec3.length, hs]
  norm_num

/-- C12 (the code departs from it): for the ellipsoid (2, 1) and the pole (0,0,1) with
radius 0, `isVisible` is true for the eye (0,0,h) on the polar axis, every `h > 1`, and
it is also true for the eye (d,0,0) in the equatorial plane, every `d > 2`: no such eye
gives "occluded". -/
theorem Horizon.isVisible_pole (mem : Horizon Dbl) (h d : ℝ) (hh : 1 < h) (hd : 2 < d) :
    (Horizon.configured mem 2 1 ⟨0, 0, h⟩).isVisible (Vec3.toDbl ⟨0, 0, 1⟩) (.fin 0) = true ∧
      (Horizon.configured mem 2 1 ⟨d, 0, 0⟩).isVisible (Vec3.toDbl ⟨0, 0, 1⟩) (.fin 0) = true := by
  constructor
  · apply Horizon.isVisible_of_one_le mem 2 1 _ two_ne_zero one_ne_zero
    have e : scaledMag2 2 1 ⟨0, 0, h⟩ = h * h := by
      simp only [scaledMag2]
      ring
    rw [e]
    nlinarith
  · apply Horizon.isVisible_of_one_le mem 2 1 _ two_ne_zero one_ne_zero
    have e : scaledMag2 2 1 ⟨d, 0, 0⟩ = d * d / 4 := by
      simp only [scaledMag2]
      ring
    rw [e]
    nlinarith

/-- C12 at the eyes (0,0,5) and (3,0,0). -/
theorem Horizon.isVisible_pole_witness :
    (1 : ℝ) < 5 ∧ (2 : ℝ) < 3 ∧
      (Horizon.configured Horizon.blank 2 1 ⟨0, 0, 5⟩).isVisible (Vec3.toDbl ⟨0, 0, 1⟩)
        (.fin 0) = true ∧
      (Horizon.configured Horizon.blank 2 1 ⟨3, 0, 0⟩).isVisible (Vec3.toDbl ⟨0, 0, 1⟩)
        (.fin 0) = true :=
  ⟨by norm_num, by norm_num,
    Horizon.isVisible_pole Horizon.blank 5 3 (by norm_num) (by norm_num)⟩

/-- In any state whose `scaleInv` holds real radii, a radius that reaches the largest of
them leaves `isVisible` through the first `return`, whatever the other members hold. -/
theorem Horizon.isVisibleExit_stage0 (h : Horizon Dbl) (Req Rpol r : ℝ) (target : Vec3 Dbl)
    (hs : h.scaleInv = ⟨.fin Req, .fin Req, .fin Rpol⟩) (hr : max Req Rpol ≤ r) :
    h.isVisibleExit target (.fin r) = .stage0 := by
  have h1 : Req ≤ r := le_trans (le_max_left _ _) hr
  unfold Horizon.isVisibleExit
  rw [hs]
  simp [h1]

/-- C13: for an ellipsoid with positive radii, any eye (inside the body or not), any
target and any radius `≥ max(Req, Rpol)`, `isVisible` returns true through the Stage 0
`return`; so does every state with the same `scaleInv`, whatever its eye-dependent
members. -/
theorem Horizon.isVisible_large_radius (mem : Horizon Dbl) (Req Rpol r : ℝ)
    (eye target : Vec3 ℝ) (_hq : 0 < Req) (_hp : 0 < Rpol) (hr : max Req Rpol ≤ r) :
    (Horizon.configured mem Req Rpol eye).isVisible target.toDbl (.fin r) = true ∧
      (Horizon.configured mem Req Rpol eye).isVisibleExit target.toDbl (.fin r) = .stage0 ∧
      ∀ k : Horizon Dbl, k.scaleInv = (Horizon.configured mem Req Rpol eye).scaleInv →
        k.isVisible target.toDbl (.fin r) = true := by
  have e := Horizon.isVisibleExit_stage0 (Horizon.configured mem Req Rpol eye) Req Rpol r
    target.toDbl (Horizon.configured_scaleInv mem Req Rpol eye) hr
  refine ⟨?_, e, ?_⟩
  · rw [Horizon.isVisible, e]
    rfl
  · intro k hk
    rw [Horizon.configured_scaleInv] at hk
    rw [Horizon.isVisible, Horizon.isVisibleExit_stage0 k Req Rpol r target.toDbl hk hr]
    rfl

/-- C13 at the ellipsoid (2, 1), the eye (1/2,0,0) inside it, target (5,0,0), radius 2. -/
theorem Horizon.isVisible_large_radius_witness :
    (0 : ℝ) < 2 ∧ (0 : ℝ) < 1 ∧ max (2 : ℝ) 1 ≤ 2 ∧
      ((Horizon.configured Horizon.blank 2 1 ⟨1 / 2, 0, 0⟩).isVisible (Vec3.toDbl ⟨5, 0, 0⟩)
          (.fin 2) = true ∧
        (Horizon.configured Horizon.blank 2 1 ⟨1 / 2, 0, 0⟩).isVisibleExit
          (Vec3.toDbl ⟨5, 0, 0⟩) (.fin 2) = .stage0 ∧
        ∀ k : Horizon Dbl,
          k.scaleInv = (Horizon.configured Horizon.blank 2 1 ⟨1 / 2, 0, 0⟩).scaleInv →
          k.isVisible (Vec3.toDbl ⟨5, 0, 0⟩) (.fin 2) = true) :=
  ⟨by norm_num, by norm_num, by norm_num,
    Horizon.isVisible_large_radius Horizon.blank 2 1 2 ⟨1 / 2, 0, 0⟩ ⟨5, 0, 0⟩ (by norm_num)
      (by norm_num) (by norm_num)⟩

/-- C14: `operator()` calls `traverse` exactly when the gate is disabled, or the node is
null, or the visitor is null, or the visitor is not a cull visitor, or `isVisible` is true
for the bounding sphere taken to world space, on a copy of the template whose eye was set
to the view point taken to world space. -/
theorem HorizonCullCallback.traverse_iff {α : Type} [Flt α] (cb : HorizonCullCallback α)
    (node : Option (Node α)) (nv : Option (NodeVisitor α)) :
    (cb.operatorCall node nv).2 = true ↔
      (cb.enabled = false ∨ node = none ∨ nv = none ∨
        (∃ v, nv = some v ∧ v.visitorType ≠ VisitorType.CULL_VISITOR) ∨
        ∃ n v, node = some n ∧ nv = some v ∧
          ((Horizon.copy cb.horizon).setEye (v.local2world v.viewPoint)).isVisible
            (v.local2world n.center) n.radius = true) := by
  unfold HorizonCullCallback.operatorCall
  cases he : cb.enabled with
  | false => simp
  | true =>
    cases node with
    | none => simp
    | some n =>
      cases nv with
      | none => simp
      | some v =>
        by_cases hv : v.visitorType = VisitorType.CULL_VISITOR
        · simp [hv]
        · simp [hv]

/-- The copy constructor yields a Horizon equal to its argument. -/
theorem Horizon.copy_eq {α : Type} (rhs : Horizon α) : Horizon.copy rhs = rhs := rfl

/-- The eye of a Horizon after `setEye`. -/
theorem Horizon.setEye_eye {α : Type} [Flt α] (h : Horizon α) (eye : Vec3 α) :
    (h.setEye eye).eye = if Vec3.ne eye h.eye then eye else h.eye := by
  unfold Horizon.setEye
  split <;> rfl

/-- C21: for every gate (template Horizon, enabled flag) and every visit
`operator()(node, nv)`, the gate after the visit is the gate before it: the ten members of
the template and the enabled flag are unchanged; the eye is set on the local copy, which
starts equal to the template. -/
theorem HorizonCullCallback.operatorCall_keeps_template {α : Type} [Flt α]
    (cb : HorizonCullCallback α) (node : Option (Node α)) (nv : Option (NodeVisitor α))
    (e : Vec3 α) :
    (cb.operatorCall node nv).1 = cb ∧
      (cb.operatorCall node nv).1.horizon.scale = cb.horizon.scale ∧
      (cb.operatorCall node nv).1.horizon.scaleInv = cb.horizon.scaleInv ∧
      (cb.operatorCall node nv).1.horizon.eye = cb.horizon.eye ∧
      (cb.operatorCall node nv).1.horizon.eyeUnit = cb.horizon.eyeUnit ∧
      (cb.operatorCall node nv).1.horizon.VC = cb.horizon.VC ∧
      (cb.operatorCall node nv).1.horizon.VCmag = cb.horizon.VCmag ∧
      (cb.operatorCall node nv).1.horizon.VCmag2 = cb.horizon.VCmag2 ∧
      (cb.operatorCall node nv).1.horizon.VHmag2 = cb.horizon.VHmag2 ∧
      (cb.operatorCall node nv).1.horizon.coneCos = cb.horizon.coneCos ∧
      (cb.operatorCall node nv).1.horizon.coneTan = cb.horizon.coneTan ∧
      (cb.operatorCall node nv).1.enabled = cb.enabled ∧
      Horizon.copy cb.horizon = cb.horizon ∧
      ((Horizon.copy cb.horizon).setEye e).eye =
        (if Vec3.ne e cb.horizon.eye then e else cb.horizon.eye) := by
  have h1 : (cb.operatorCall node nv).1 = cb := by
    unfold HorizonCullCallback.operatorCall
    rfl
  rw [h1]
  exact ⟨rfl, rfl, rfl, rfl, rfl, rfl, rfl, rfl, rfl, rfl, rfl, rfl, rfl,
    Horizon.setEye_eye _ _⟩

/-! ## Arithmetic of machine doubles -/

theorem bitLenFuel_spec (fuel : Nat) :
    ∀ n, n < 2 ^ fuel →
      n < 2 ^ bitLenFuel fuel n ∧ (n ≠ 0 → 2 ^ (bitLenFuel fuel n - 1) ≤ n) := by
  induction fuel with
  | zero =>
    intro n hn
    have h0 : n = 0 := by simpa using hn
    subst h0
    simp [bitLenFuel]
  | succ k ih =>
    intro n hn
    by_cases h0 : n = 0
    · subst h0
      simp [bitLenFuel]
    · have hlt : n / 2 < 2 ^ k := by
        rw [pow_succ] at hn
        omega
      obtain ⟨i1, i2⟩ := ih (n / 2) hlt
      have hb : bitLenFuel (k + 1) n = bitLenFuel k (n / 2) + 1 := by
        simp [bitLenFuel, h0]
      rw [hb]
      refine ⟨?_, fun _ => ?_⟩
      · rw [pow_succ]
        omega
      · simp only [Nat.add_sub_cancel]
        by_cases h2 : n / 2 = 0
        · have hz : bitLenFuel k (n / 2) = 0 := by
            rw [h2]
            cases k <;> simp [bitLenFuel]
          rw [hz]
          simp
          omega
        · have i3 := i2 h2
          have hpos : 1 ≤ bitLenFuel k (n / 2) := by
            by_contra hc
            have hz : bitLenFuel k (n / 2) = 0 := by omega
            rw [hz] at i1
            simp at i1
            exact h2 i1
          obtain ⟨j, hj⟩ : ∃ j, bitLenFuel k (n / 2) = j + 1 := ⟨bitLenFuel k (n / 2) - 1, by omega⟩
          rw [hj] at i3 ⊢
          simp only [Nat.add_sub_cancel] at i3
          rw [pow_succ]
          omega

/-- The number of binary digits: `2^(bitLen n - 1) <= n < 2^(bitLen n)` for `n > 0`. -/
theorem bitLen_spec (n : Nat) : n < 2 ^ bitLen n ∧ (n ≠ 0 → 2 ^ (bitLen n - 1) ≤ n) :=
  bitLenFuel_spec n n (Nat.lt_two_pow n)

theorem isqrtAux_spec (n : Nat) (i : Nat) :
    ∀ r, r * r ≤ n → n < (r + 2 ^ i) * (r + 2 ^ i) →
      isqrtAux i n r * isqrtAux i n r ≤ n ∧ n < (isqrtAux i n r + 1) * (isqrtAux i n r + 1) := by
  induction i with
  | zero =>
    intro r h1 h2
    simpa [isqrtAux] using ⟨h1, h2⟩
  | succ k ih =>
    intro r h1 h2
    by_cases hc : (r + 2 ^ k) * (r + 2 ^ k) ≤ n
    · have hs : isqrtAux (k + 1) n r = isqrtAux k n (r + 2 ^ k) := by simp [isqrtAux, hc]
      rw [hs]
      refine ih _ hc ?_
      have : r + 2 ^ k + 2 ^ k = r + 2 ^ (k + 1) := by rw [pow_succ]; omega
      rw [this]
      exact h2
    · have hs : isqrtAux (k + 1) n r = isqrtAux k n r := by simp [isqrtAux, hc]
      rw [hs]
      exact ih _ h1 (by omega)

/-- The integer square root: `isqrt n` is the largest `r` with `r * r <= n`. -/
theorem isqrt_spec (n : Nat) : isqrt n * isqrt n ≤ n ∧ n < (isqrt n + 1) * (isqrt n + 1) := by
  unfold isqrt
  refine isqrtAux_spec n _ 0 (by simp) ?_
  have h1 := (bitLen_spec n).1
  have h2 : 2 ^ bitLen n ≤ 2 ^ (bitLen n / 2 + 1) * 2 ^ (bitLen n / 2 + 1) := by
    rw [← pow_add]
    exact Nat.pow_le_pow_right (by norm_num) (by omega)
  simp only [Nat.zero_add]
  omega

namespace F64

theorem mul_nan_right (x : F64) : mul x nan = nan := by cases x <;> rfl
theorem mul_nan_left (x : F64) : mul nan x = nan := by cases x <;> rfl
theorem sub_nan_right (x : F64) : sub x nan = nan := by cases x <;> rfl
theorem sub_nan_left (x : F64) : sub nan x = nan := by cases x <;> rfl
theorem div_nan_right (x : F64) : div x nan = nan := by cases x <;> rfl
theorem cmp_nan_right (x : F64) : cmp x nan = none := by cases x <;> rfl
theorem lt_nan_right (x : F64) : lt x nan = false := by simp [lt, cmp_nan_right]

set_option maxRecDepth 100000 in
/-- Three values of the model against the bit patterns of the hardware: `1/3` is
`0x3FD5555555555555`, `sqrt 2` is `0x3FF6A09E667F3BCD`, and `sqrtf 3` is the `float`
`0x3FDDB3D7`. -/
theorem bit_patterns :
    div (ofNat 1) (ofNat 3) = fin false 6004799503160661 (-54) ∧
      sqrt (ofNat 2) = fin false 6369051672525773 (-52) ∧
      sqrtf (ofNat 3) = fin false 7800463231549440 (-52) ∧
      (7800463231549440 : Nat) = 14529495 * 2 ^ 29 := by
  refine ⟨by rfl, by rfl, by rfl, by norm_num⟩

theorem ofNat_zero : ofNat 0 = fin false 0 (-1074) := by decide

theorem roundTo_zero (p : Nat) (emin emax : Int) (s : Bool) (e : Int) :
    roundTo p emin emax s 0 e = fin s 0 emin := by
  simp [roundTo]

theorem round_zero (s : Bool) (e : Int) : round s 0 e = fin s 0 (-1074) :=
  roundTo_zero _ _ _ _ _

theorem isZero_iff (x : F64) : isZero x = true ↔ ∃ s e, x = fin s 0 e := by
  cases x with
  | fin s m e => simp [isZero]
  | inf s => simp [isZero]
  | nan => simp [isZero]

/-- A comparison does not see the sign of a zero on its left. -/
theorem le_of_isZero (z v : F64) (hz : isZero z = true) : le z v = le (ofNat 0) v := by
  obtain ⟨s, e, rfl⟩ := (isZero_iff z).1 hz
  rw [ofNat_zero]
  cases v with
  | fin t n f => simp [le, cmp, cmpFin]
  | inf t => simp [le, cmp]
  | nan => simp [le, cmp]

/-- Rounding keeps the sign. -/
theorem finish_sign (p : Nat) (emax : Int) (s : Bool) (m : Nat) (e : Int) :
    (∃ m1 e1, finish p emax s m e = fin s m1 e1) ∨ finish p emax s m e = inf s := by
  unfold finish
  split
  · split
    · exact Or.inr rfl
    · exact Or.inl ⟨_, _, rfl⟩
  · split
    · exact Or.inr rfl
    · exact Or.inl ⟨_, _, rfl⟩

theorem roundTo_sign (p : Nat) (emin emax : Int) (s : Bool) (n : Nat) (e : Int) :
    (∃ m1 e1, roundTo p emin emax s n e = fin s m1 e1) ∨ roundTo p emin emax s n e = inf s := by
  unfold roundTo
  split
  · exact Or.inl ⟨_, _, rfl⟩
  · simp only []
    split
    · exact finish_sign _ _ _ _ _
    · exact finish_sign _ _ _ _ _

/-- The values below zero: `-inf` and the negative non-zero finite values. -/
theorem lt_zero_iff (x : F64) :
    lt x (ofNat 0) = true ↔ x = inf true ∨ ∃ m e, m ≠ 0 ∧ x = fin true m e := by
  rw [ofNat_zero]
  cases x with
  | fin s m e =>
    by_cases hm : m = 0
    · simp [lt, cmp, cmpFin, hm]
    · cases s <;> simp [lt, cmp, cmpFin, hm]
  | inf s => cases s <;> simp [lt, cmp]
  | nan => simp [lt, cmp]

/-- The values `>= 0`: `+inf`, the zeros and the positive finite values. -/
theorem le_zero_iff (x : F64) :
    le (ofNat 0) x = true ↔
      x = inf false ∨ (∃ s e, x = fin s 0 e) ∨ ∃ m e, x = fin false m e := by
  rw [ofNat_zero]
  cases x with
  | fin s m e =>
    by_cases hm : m = 0
    · simp [le, cmp, cmpFin, hm]
    · cases s <;> simp [le, cmp, cmpFin, hm]
  | inf s => cases s <;> simp [le, cmp]
  | nan => simp [le, cmp]

/-- `sqrt` of a value below zero is NaN. -/
theorem sqrt_of_neg (x : F64) (h : lt x (ofNat 0) = true) : sqrt x = nan := by
  rcases (lt_zero_iff x).1 h with rfl | ⟨m, e, hm, rfl⟩
  · rfl
  · simp [sqrt, hm]

/-- `sqrt` of a value `>= 0` is a value `>= 0`, not NaN. -/
theorem sqrt_of_nonneg (x : F64) (h : le (ofNat 0) x = true) :
    sqrt x ≠ nan ∧ le (ofNat 0) (sqrt x) = true := by
  rcases (le_zero_iff x).1 h with rfl | ⟨s, e, rfl⟩ | ⟨m, e, rfl⟩
  · exact ⟨by simp [sqrt], by decide⟩
  · refine ⟨by simp [sqrt], ?_⟩
    rw [le_zero_iff]
    exact Or.inr (Or.inl ⟨s, -1074, by simp [sqrt]⟩)
  · by_cases hm : m = 0
    · subst hm
      refine ⟨by simp [sqrt], ?_⟩
      rw [le_zero_iff]
      exact Or.inr (Or.inl ⟨false, -1074, by simp [sqrt]⟩)
    · have hs : sqrt (fin false m e) = sqrtTo 53 (-1074) 971 m e := by simp [sqrt, hm]
      rw [hs]
      unfold sqrtTo
      simp only []
      rcases roundTo_sign 53 (-1074) 971 false
          (2 * isqrt ((if e % 2 = 0 then m else 2 * m) * 4 ^ 64) +
            if isqrt ((if e % 2 = 0 then m else 2 * m) * 4 ^ 64) *
                isqrt ((if e % 2 = 0 then m else 2 * m) * 4 ^ 64) =
              (if e % 2 = 0 then m else 2 * m) * 4 ^ 64 then 0 else 1)
          ((if e % 2 = 0 then e else e - 1) / 2 - 64 - 1) with ⟨m1, e1, h1⟩ | h1
      · rw [h1]
        exact ⟨by simp, (le_zero_iff _).2 (Or.inr (Or.inr ⟨m1, e1, rfl⟩))⟩
      · rw [h1]
        exact ⟨by simp, (le_zero_iff _).2 (Or.inl rfl)⟩

/-- `sqrtf` of a value below zero is NaN, or `-0` when the value rounds to `-0` in
binary32. -/
theorem sqrtf_of_neg (x : F64) (h : lt x (ofNat 0) = true) :
    sqrtf x = nan ∨ sqrtf x = fin true 0 (-1074) := by
  rcases (lt_zero_iff x).1 h with rfl | ⟨m, e, hm, rfl⟩
  · exact Or.inl rfl
  · unfold sqrtf
    have ht : toSingle (fin true m e) = roundTo 24 (-149) 104 true m e := rfl
    rw [ht]
    rcases roundTo_sign 24 (-149) 104 true m e with ⟨m1, e1, h1⟩ | h1
    · rw [h1]
      by_cases hm1 : m1 = 0
      · right
        simp [sqrtSingle, hm1, ofSingle, round_zero]
      · left
        simp [sqrtSingle, hm1, ofSingle]
    · rw [h1]
      left
      rfl

/-- A quotient by `-0` is NaN or an infinity. -/
theorem div_neg_zero (a : F64) :
    div a (fin true 0 (-1074)) = nan ∨ ∃ s, div a (fin true 0 (-1074)) = inf s := by
  cases a with
  | fin s m e =>
    by_cases hm : m = 0
    · simp [div, hm]
    · simp [div, hm]
  | inf s => simp [div]
  | nan => simp [div]

theorem same_refl (a : F64) : same a a := Or.inl rfl

theorem same_trans {a b c : F64} (h1 : same a b) (h2 : same b c) : same a c := by
  rcases h1 with rfl | ⟨ha, hb⟩
  · exact h2
  · rcases h2 with rfl | ⟨_, hc⟩
    · exact Or.inr ⟨ha, hb⟩
    · exact Or.inr ⟨ha, hc⟩

theorem neg_neg (a : F64) : neg (neg a) = a := by
  cases a <;> simp [neg]

theorem finish_neg (p : Nat) (emax : Int) (s : Bool) (m : Nat) (e : Int) :
    neg (finish p emax s m e) = finish p emax (!s) m e := by
  unfold finish
  split <;> split <;> rfl

theorem roundTo_neg (p : Nat) (emin emax : Int) (s : Bool) (n : Nat) (e : Int) :
    neg (roundTo p emin emax s n e) = roundTo p emin emax (!s) n e := by
  unfold roundTo
  split
  · rfl
  · simp only []
    split <;> exact finish_neg _ _ _ _ _

/-- Rounding commutes with negation: round-to-nearest-even is symmetric. -/
theorem round_neg (s : Bool) (n : Nat) (e : Int) : neg (round s n e) = round (!s) n e :=
  roundTo_neg _ _ _ _ _ _

theorem neg_mul (a b : F64) : mul (neg a) b = neg (mul a b) := by
  cases a with
  | nan => cases b <;> rfl
  | inf s =>
    cases b with
    | nan => rfl
    | inf t => cases s <;> cases t <;> rfl
    | fin t n f =>
      by_cases hn : n = 0
      · simp [mul, neg, hn]
      · cases s <;> cases t <;> simp [mul, neg, hn]
  | fin s m e =>
    cases b with
    | nan => rfl
    | inf t =>
      by_cases hm : m = 0
      · simp [mul, neg, hm]
      · cases s <;> cases t <;> simp [mul, neg, hm]
    | fin t n f =>
      show round (xor (!s) t) (m * n) (e + f) = neg (round (xor s t) (m * n) (e + f))
      rw [round_neg]
      cases s <;> cases t <;> rfl

theorem mul_neg (a b : F64) : mul a (neg b) = neg (mul a b) := by
  cases a with
  | nan => cases b <;> rfl
  | inf s =>
    cases b with
    | nan => rfl
    | inf t => cases s <;> cases t <;> rfl
    | fin t n f =>
      by_cases hn : n = 0
      · simp [mul, neg, hn]
      · cases s <;> cases t <;> simp [mul, neg, hn]
  | fin s m e =>
    cases b with
    | nan => rfl
    | inf t =>
      by_cases hm : m = 0
      · simp [mul, neg, hm]
      · cases s <;> cases t <;> simp [mul, neg, hm]
    | fin t n f =>
      show round (xor s (!t)) (m * n) (e + f) = neg (round (xor s t) (m * n) (e + f))
      rw [round_neg]
      cases s <;> cases t <;> rfl

theorem addFin_comm (s : Bool) (m : Nat) (e : Int) (t : Bool) (n : Nat) (f : Int) :
    addFin s m e t n f = addFin t n f s m e := by
  unfold addFin
  by_cases hm : m = 0
  · by_cases hn : n = 0
    · simp [hm, hn, Bool.and_comm]
    · simp [hm, hn]
  · by_cases hn : n = 0
    · simp [hm, hn]
    · simp only [hm, hn, false_and, and_false, if_false, min_comm f e]
      by_cases hst : s = t
      · subst hst
        simp [Nat.add_comm]
      · have hts : ¬ t = s := fun h => hst h.symm
        simp only [hst, hts, if_false]
        by_cases hab : m * 2 ^ (e - min e f).toNat = n * 2 ^ (f - min e f).toNat
        · simp [hab]
        · have hba : ¬ n * 2 ^ (f - min e f).toNat = m * 2 ^ (e - min e f).toNat :=
            fun h => hab h.symm
          simp only [hab, hba, if_false]
          by_cases hlt : n * 2 ^ (f - min e f).toNat < m * 2 ^ (e - min e f).toNat
          · have : ¬ m * 2 ^ (e - min e f).toNat < n * 2 ^ (f - min e f).toNat := by omega
            simp [hlt, this]
          · have : m * 2 ^ (e - min e f).toNat < n * 2 ^ (f - min e f).toNat := by omega
            simp [hlt, this]

/-- Addition of doubles is commutative. -/
theorem add_comm (a b : F64) : add a b = add b a := by
  cases a with
  | nan => cases b <;> rfl
  | inf s =>
    cases b with
    | nan => rfl
    | inf t => cases s <;> cases t <;> rfl
    | fin t n f => rfl
  | fin s m e =>
    cases b with
    | nan => rfl
    | inf t => rfl
    | fin t n f => exact addFin_comm _ _ _ _ _ _

theorem isZero_neg (a : F64) (h : isZero a = true) : isZero (neg a) = true := by
  obtain ⟨s, e, rfl⟩ := (isZero_iff a).1 h
  rfl

theorem same_neg {a b : F64} (h : same a b) : same (neg a) (neg b) := by
  rcases h with rfl | ⟨ha, hb⟩
  · exact Or.inl rfl
  · exact Or.inr ⟨isZero_neg a ha, isZero_neg b hb⟩

/-- A zero times any value is a zero or NaN. -/
theorem mul_zero_left (s : Bool) (e : Int) (b : F64) :
    mul (fin s 0 e) b = nan ∨ isZero (mul (fin s 0 e) b) = true := by
  cases b with
  | nan => exact Or.inl rfl
  | inf t => left; simp [mul]
  | fin t n f => right; simp [mul, round_zero, isZero]

theorem same_mul_right {a a1 : F64} (b : F64) (h : same a a1) : same (mul a b) (mul a1 b) := by
  rcases h with rfl | ⟨ha, hb⟩
  · exact Or.inl rfl
  · obtain ⟨s, e, rfl⟩ := (isZero_iff a).1 ha
    obtain ⟨t, f, rfl⟩ := (isZero_iff a1).1 hb
    cases b with
    | nan => exact Or.inl rfl
    | inf u => left; simp [mul]
    | fin u n g => right; simp [mul, round_zero, isZero]

theorem same_mul_left {a a1 : F64} (b : F64) (h : same a a1) : same (mul b a) (mul b a1) := by
  rcases h with rfl | ⟨ha, hb⟩
  · exact Or.inl rfl
  · obtain ⟨s, e, rfl⟩ := (isZero_iff a).1 ha
    obtain ⟨t, f, rfl⟩ := (isZero_iff a1).1 hb
    cases b with
    | nan => exact Or.inl rfl
    | inf u => left; simp [mul]
    | fin u n g => right; simp [mul, round_zero, isZero]

theorem same_mul {a a1 b b1 : F64} (ha : same a a1) (hb : same b b1) :
    same (mul a b) (mul a1 b1) :=
  same_trans (same_mul_right b ha) (same_mul_left a1 hb)

/-- The square does not see the sign of a zero. -/
theorem mul_self_same {a a1 : F64} (h : same a a1) : mul a a = mul a1 a1 := by
  rcases h with rfl | ⟨ha, hb⟩
  · rfl
  · obtain ⟨s, e, rfl⟩ := (isZero_iff a).1 ha
    obtain ⟨t, f, rfl⟩ := (isZero_iff a1).1 hb
    simp [mul, round_zero]

theorem same_add_right {a a1 : F64} (b : F64) (h : same a a1) : same (add a b) (add a1 b) := by
  rcases h with rfl | ⟨ha, hb⟩
  · exact Or.inl rfl
  · obtain ⟨s, e, rfl⟩ := (isZero_iff a).1 ha
    obtain ⟨t, f, rfl⟩ := (isZero_iff a1).1 hb
    cases b with
    | nan => exact Or.inl rfl
    | inf u => exact Or.inl rfl
    | fin u n g =>
      by_cases hn : n = 0
      · right; simp [add, addFin, hn, isZero]
      · left; simp [add, addFin, hn]

theorem same_add {a a1 b b1 : F64} (ha : same a a1) (hb : same b b1) :
    same (add a b) (add a1 b1) := by
  refine same_trans (same_add_right b ha) ?_
  rw [add_comm a1 b, add_comm a1 b1]
  exact same_add_right a1 hb

theorem same_sub {a a1 b b1 : F64} (ha : same a a1) (hb : same b b1) :
    same (sub a b) (sub a1 b1) :=
  same_add ha (same_neg hb)

/-- A comparison does not see the sign of a zero on its right. -/
theorem lt_same_right (r : F64) {a a1 : F64} (h : same a a1) : lt r a = lt r a1 := by
  rcases h with rfl | ⟨ha, hb⟩
  · rfl
  · obtain ⟨s, e, rfl⟩ := (isZero_iff a).1 ha
    obtain ⟨t, f, rfl⟩ := (isZero_iff a1).1 hb
    cases r with
    | nan => rfl
    | inf u => rfl
    | fin u n g =>
      by_cases hn : n = 0
      · simp [lt, cmp, cmpFin, hn]
      · simp [lt, cmp, cmpFin, hn]

theorem le_same_left (v : F64) {a a1 : F64} (h : same a a1) : le a v = le a1 v := by
  rcases h with rfl | ⟨ha, hb⟩
  · rfl
  · rw [le_of_isZero a v ha, le_of_isZero a1 v hb]

/-- The sum of the negations is the negated sum, up to the sign of an exact zero. -/
theorem add_neg_neg (a c : F64) : same (add (neg a) (neg c)) (neg (add a c)) := by
  cases a with
  | nan => cases c <;> exact Or.inl rfl
  | inf s =>
    cases c with
    | nan => exact Or.inl rfl
    | inf t => cases s <;> cases t <;> exact Or.inl rfl
    | fin t n f => exact Or.inl rfl
  | fin s m e =>
    cases c with
    | nan => exact Or.inl rfl
    | inf t => exact Or.inl rfl
    | fin t n f =>
      show same (addFin (!s) m e (!t) n f) (neg (addFin s m e t n f))
      unfold addFin
      by_cases hm : m = 0
      · by_cases hn : n = 0
        · right; simp [hm, hn, isZero, neg]
        · left; simp [hm, hn, neg]
      · by_cases hn : n = 0
        · left; simp [hm, hn, neg]
        · simp only [hm, hn, false_and, and_false, if_false]
          by_cases hst : s = t
          · subst hst
            left
            simp [round_neg]
          · have hst1 : ¬ (!s) = (!t) := by cases s <;> cases t <;> simp at hst ⊢
            simp only [hst, hst1, if_false]
            by_cases hab : m * 2 ^ (e - min e f).toNat = n * 2 ^ (f - min e f).toNat
            · right; simp [hab, isZero, neg]
            · simp only [hab, if_false]
              left
              split <;> rw [round_neg]

theorem sub_neg_neg (a b : F64) : same (sub (neg a) (neg b)) (neg (sub a b)) :=
  add_neg_neg a (neg b)

theorem zeroOrNan_zero_mul (s : F64) : zeroOrNan (mul (ofNat 0) s) := by
  rw [ofNat_zero]
  rcases mul_zero_left false (-1074) s with h | h
  · exact Or.inr h
  · exact Or.inl h

theorem zeroOrNan_mul {z : F64} (v : F64) (h : zeroOrNan z) : zeroOrNan (mul z v) := by
  rcases h with h | rfl
  · obtain ⟨s, e, rfl⟩ := (isZero_iff z).1 h
    rcases mul_zero_left s e v with h | h
    · exact Or.inr h
    · exact Or.inl h
  · exact Or.inr (mul_nan_left v)

theorem same_neg_self {x : F64} (h : zeroOrNan x) : same (neg x) x := by
  rcases h with h | rfl
  · exact Or.inr ⟨isZero_neg x h, h⟩
  · exact Or.inl rfl

theorem neg_mul_neg (a : F64) : mul (neg a) (neg a) = mul a a := by
  rw [neg_mul, mul_neg, neg_neg]

/-- The sum of squares under a quarter turn. -/
theorem sumsq_rot (x y z : F64) :
    add (add (mul (neg y) (neg y)) (mul x x)) (mul z z) =
      add (add (mul x x) (mul y y)) (mul z z) := by
  rw [neg_mul_neg, add_comm (mul y y) (mul x x)]

/-- The sum of squares when the first component is the negated second up to the sign of
zero. -/
theorem sumsq_rot_same (x y z w : F64) (h : same w (neg y)) :
    add (add (mul w w) (mul x x)) (mul z z) = add (add (mul x x) (mul y y)) (mul z z) := by
  rw [mul_self_same h, sumsq_rot]

/-- The Stage 2 projection `a` under a quarter turn. -/
theorem proj_rot (tx ty tz ex ey ez ux uy uz : F64) :
    same
      (add (add (mul (sub (neg ty) (neg ey)) (neg (neg uy))) (mul (sub tx ex) (neg ux)))
        (mul (sub tz ez) (neg uz)))
      (add (add (mul (sub tx ex) (neg ux)) (mul (sub ty ey) (neg uy)))
        (mul (sub tz ez) (neg uz))) := by
  have h1 : same (mul (sub (neg ty) (neg ey)) (neg (neg uy))) (mul (sub ty ey) (neg uy)) := by
    rw [neg_neg, mul_neg, ← neg_mul]
    exact same_mul_right uy (sub_neg_neg ty ey)
  rw [add_comm (mul (sub tx ex) (neg ux)) (mul (sub ty ey) (neg uy))]
  exact same_add_right _ (same_add_right _ h1)

/-- The Stage 1 comparison under a quarter turn of `scaledEyeToCenter`. -/
theorem stage1_rot (z z2 vx vy w v : F64) (h12 : z = z2) (hz : zeroOrNan z) :
    le (add (add (mul z (neg vy)) (mul z2 vx)) w) v =
      le (add (add (mul z vx) (mul z2 vy)) w) v := by
  subst h12
  apply le_same_left
  rw [add_comm (mul z vx) (mul z vy), mul_neg]
  exact same_add_right _ (same_add_right _ (same_neg_self (zeroOrNan_mul vy hz)))

/-- The Stage 2 comparison under a quarter turn of eye, eye direction and target. -/
theorem stage2_rot (tx ty tz ex ey ez ux uy uz T C r : F64) :
    lt (neg r)
        (mul
          (sub
            (sqrt
              (sub
                (add
                  (add (mul (sub (neg ty) (neg ey)) (sub (neg ty) (neg ey)))
                    (mul (sub tx ex) (sub tx ex)))
                  (mul (sub tz ez) (sub tz ez)))
                (mul
                  (add
                    (add (mul (sub (neg ty) (neg ey)) (neg (neg uy)))
                      (mul (sub tx ex) (neg ux)))
                    (mul (sub tz ez) (neg uz)))
                  (add
                    (add (mul (sub (neg ty) (neg ey)) (neg (neg uy)))
                      (mul (sub tx ex) (neg ux)))
                    (mul (sub tz ez) (neg uz))))))
            (mul
              (add
                (add (mul (sub (neg ty) (neg ey)) (neg (neg uy))) (mul (sub tx ex) (neg ux)))
                (mul (sub tz ez) (neg uz)))
              T))
          C) =
      lt (neg r)
        (mul
          (sub
            (sqrt
              (sub
                (add
                  (add (mul (sub tx ex) (sub tx ex)) (mul (sub ty ey) (sub ty ey)))
                  (mul (sub tz ez) (sub tz ez)))
                (mul
                  (add
                    (add (mul (sub tx ex) (neg ux)) (mul (sub ty ey) (neg uy)))
                    (mul (sub tz ez) (neg uz)))
                  (add
                    (add (mul (sub tx ex) (neg ux)) (mul (sub ty ey) (neg uy)))
                    (mul (sub tz ez) (neg uz))))))
            (mul
              (add (add (mul (sub tx ex) (neg ux)) (mul (sub ty ey) (neg uy)))
                (mul (sub tz ez) (neg uz)))
              T))
          C) := by
  have ha := proj_rot tx ty tz ex ey ez ux uy uz
  rw [mul_self_same ha, sumsq_rot_same (sub tx ex) (sub ty ey) (sub tz ez) _ (sub_neg_neg ty ey)]
  exact lt_same_right _ (same_mul_right C (same_sub (same_refl _) (same_mul_right T ha)))

theorem canonical_lt (s : Bool) (m : Nat) (e : Int) (h : isCanonical (fin s m e) = true) :
    m < 2 ^ 53 := by
  simp only [isCanonical, Bool.or_eq_true, Bool.and_eq_true, decide_eq_true_eq] at h
  rcases h with h | h
  · exact h.1.1.2
  · have := h.1
    omega

theorem canonical_normal (s : Bool) (m : Nat) (e : Int) (h : isCanonical (fin s m e) = true)
    (he : -1074 < e) : 2 ^ 52 ≤ m := by
  simp only [isCanonical, Bool.or_eq_true, Bool.and_eq_true, decide_eq_true_eq] at h
  rcases h with h | h
  · exact h.1.1.1
  · omega

/-- Two canonical doubles that `==` equates are the same up to the sign of zero. -/
theorem same_of_eq (a b : F64) (ha : isCanonical a = true) (hb : isCanonical b = true)
    (h : eq a b = true) : same a b := by
  cases a with
  | nan => simp [eq, cmp] at h
  | inf s =>
    cases b with
    | nan => simp [eq, cmp] at h
    | inf t =>
      left
      cases s <;> cases t <;> simp [eq, cmp] at h ⊢
    | fin t n f => cases s <;> simp [eq, cmp] at h
  | fin s m e =>
    cases b with
    | nan => simp [eq, cmp] at h
    | inf t => cases t <;> simp [eq, cmp] at h
    | fin t n f =>
      by_cases hm : m = 0
      · by_cases hn : n = 0
        · right
          simp [isZero, hm, hn]
        · cases t <;> simp [eq, cmp, cmpFin, hm, hn] at h
      · by_cases hn : n = 0
        · cases s <;> simp [eq, cmp, cmpFin, hm, hn] at h
        · by_cases hst : s = t
          · subst hst
            have hab : m * 2 ^ (e - min e f).toNat = n * 2 ^ (f - min e f).toNat := by
              by_contra hne
              cases s <;> simp [eq, cmp, cmpFin, hm, hn, hne] at h
            have hm53 := canonical_lt s m e ha
            have hn53 := canonical_lt s n f hb
            left
            rcases lt_trichotomy e f with hlt | heq | hgt
            · exfalso
              have hn52 := canonical_normal s n f hb (by
                simp only [isCanonical, Bool.or_eq_true, Bool.and_eq_true,
                  decide_eq_true_eq] at ha
                rcases ha with ha | ha <;> omega)
              have hg : min e f = e := min_eq_left (le_of_lt hlt)
              rw [hg] at hab
              have h1 : (e - e).toNat = 0 := by simp
              rw [h1] at hab
              obtain ⟨k, hk⟩ : ∃ k, (f - e).toNat = k + 1 := ⟨(f - e).toNat - 1, by omega⟩
              rw [hk, pow_succ] at hab
              have : 1 ≤ 2 ^ k := Nat.one_le_two_pow
              nlinarith
            · subst heq
              simp at hab
              rw [hab]
            · exfalso
              have hm52 := canonical_normal s m e ha (by
                simp only [isCanonical, Bool.or_eq_true, Bool.and_eq_true,
                  decide_eq_true_eq] at hb
                rcases hb with hb | hb <;> omega)
              have hg : min e f = f := min_eq_right (le_of_lt hgt)
              rw [hg] at hab
              have h1 : (f - f).toNat = 0 := by simp
              rw [h1] at hab
              obtain ⟨k, hk⟩ : ∃ k, (e - f).toNat = k + 1 := ⟨(e - f).toNat - 1, by omega⟩
              rw [hk, pow_succ] at hab
              have : 1 ≤ 2 ^ k := Nat.one_le_two_pow
              nlinarith
          · cases s <;> cases t <;> simp [eq, cmp, cmpFin, hm, hn] at h hst

theorem isCanonical_neg (a : F64) : isCanonical (neg a) = isCanonical a := by
  cases a <;> rfl

/-- The sum of squares does not see the signs of zeros. -/
theorem sumsq_same {x y z x1 y1 z1 : F64} (hx : same x x1) (hy : same y y1) (hz : same z z1) :
    add (add (mul x x) (mul y y)) (mul z z) = add (add (mul x1 x1) (mul y1 y1)) (mul z1 z1) := by
  rw [mul_self_same hx, mul_self_same hy, mul_self_same hz]

/-- A dot product sees the signs of zeros only in the sign of a zero result. -/
theorem dot_same {x y z x1 y1 z1 u v w u1 v1 w1 : F64} (hx : same x x1) (hy : same y y1)
    (hz : same z z1) (hu : same u u1) (hv : same v v1) (hw : same w w1) :
    same (add (add (mul x u) (mul y v)) (mul z w))
      (add (add (mul x1 u1) (mul y1 v1)) (mul z1 w1)) :=
  same_add (same_add (same_mul hx hu) (same_mul hy hv)) (same_mul hz hw)

/-- The Stage 2 comparison for two eyes and eye directions equal up to the signs of
zeros. -/
theorem stage2_same (tx ty tz T C r : F64) {ex ey ez ux uy uz ex1 ey1 ez1 ux1 uy1 uz1 : F64}
    (hex : same ex ex1) (hey : same ey ey1) (hez : same ez ez1)
    (hux : same ux ux1) (huy : same uy uy1) (huz : same uz uz1) :
    lt (neg r)
        (mul
          (sub
            (sqrt
              (sub
                (add (add (mul (sub tx ex) (sub tx ex)) (mul (sub ty ey) (sub ty ey)))
                  (mul (sub tz ez) (sub tz ez)))
                (mul
                  (add (add (mul (sub tx ex) (neg ux)) (mul (sub ty ey) (neg uy)))
                    (mul (sub tz ez) (neg uz)))
                  (add (add (mul (sub tx ex) (neg ux)) (mul (sub ty ey) (neg uy)))
                    (mul (sub tz ez) (neg uz))))))
            (mul
              (add (add (mul (sub tx ex) (neg ux)) (mul (sub ty ey) (neg uy)))
                (mul (sub tz ez) (neg uz)))
              T))
          C) =
      lt (neg r)
        (mul
          (sub
            (sqrt
              (sub
                (add (add (mul (sub tx ex1) (sub tx ex1)) (mul (sub ty ey1) (sub ty ey1)))
                  (mul (sub tz ez1) (sub tz ez1)))
                (mul
                  (add (add (mul (sub tx ex1) (neg ux1)) (mul (sub ty ey1) (neg uy1)))
                    (mul (sub tz ez1) (neg uz1)))
                  (add (add (mul (sub tx ex1) (neg ux1)) (mul (sub ty ey1) (neg uy1)))
                    (mul (sub tz ez1) (neg uz1))))))
            (mul
              (add (add (mul (sub tx ex1) (neg ux1)) (mul (sub ty ey1) (neg uy1)))
                (mul (sub tz ez1) (neg uz1)))
              T))
          C) := by
  have hx := same_sub (same_refl tx) hex
  have hy := same_sub (same_refl ty) hey
  have hz := same_sub (same_refl tz) hez
  have ha := dot_same hx hy hz (same_neg hux) (same_neg huy) (same_neg huz)
  rw [mul_self_same ha, sumsq_same hx hy hz]
  exact lt_same_right _ (same_mul_right C (same_sub (same_refl _) (same_mul_right T ha)))

set_option maxRecDepth 100000 in
/-- The double `1e7`. -/
theorem ofNat_placeholder : ofNat 10000000 = fin false 5368709120000000 (-29) := by
  rfl

/-- No double is `==` both to `1e7` and to `0`. -/
theorem not_eq_placeholder_zero (x : F64) (hx : F64.eq x (F64.ofNat 10000000) = true)
    (hy : F64.eq x (F64.ofNat 0) = true) : False := by
  rw [F64.ofNat_placeholder] at hx
  rw [F64.ofNat_zero] at hy
  cases x with
  | nan => simp [F64.eq, F64.cmp] at hx
  | inf s => cases s <;> simp [F64.eq, F64.cmp] at hx
  | fin s m e =>
    by_cases hm : m = 0
    · simp [F64.eq, F64.cmp, F64.cmpFin, hm] at hx
    · cases s <;> simp [F64.eq, F64.cmp, F64.cmpFin, hm] at hy

/-- `acos` of an infinity is NaN. -/
theorem acos_inf [Libm] (s : Bool) : (Flt.acos (F64.inf s) : F64) = F64.nan := by
  cases s
  · exact Libm.acos_gt_one _ (by decide)
  · exact Libm.acos_lt_neg_one _ (by decide)

/-- The value `tan(acos(p / sqrtf(v)))` is NaN when `v` is below zero: the quotient is NaN
or an infinity. -/
theorem coneTan_nan_of_neg [Libm] (p v : F64) (h : F64.lt v (F64.ofNat 0) = true) :
    (Flt.tan (Flt.acos (p / Flt.sqrtf v)) : F64) = F64.nan := by
  have hq : (p / Flt.sqrtf v : F64) = F64.nan ∨ ∃ s, (p / Flt.sqrtf v : F64) = F64.inf s := by
    show F64.div p (F64.sqrtf v) = F64.nan ∨ ∃ s, F64.div p (F64.sqrtf v) = F64.inf s
    rcases F64.sqrtf_of_neg v h with h1 | h1
    · rw [h1, F64.div_nan_right]; exact Or.inl rfl
    · rw [h1]; exact F64.div_neg_zero p
  rcases hq with h1 | ⟨s, h1⟩
  · rw [h1]
    show Libm.tan (Libm.acos F64.nan) = F64.nan
    rw [Libm.acos_nan, Libm.tan_nan]
  · rw [h1, F64.acos_inf]
    exact Libm.tan_nan

end F64

/-! ## The state of a Horizon on machine doubles -/

theorem Vec3.mk_congr {α : Type} {a b c a1 b1 : α} (ha : a = a1) (hb : b = b1) :
    (⟨a, b, c⟩ : Vec3 α) = ⟨a1, b1, c⟩ := by
  subst ha
  subst hb
  rfl

/-- `setEye` with an eye that differs from the stored one writes the recomputed state. -/
theorem Horizon.setEye_of_ne {α : Type} [Flt α] (h : Horizon α) (eye : Vec3 α)
    (hne : Vec3.ne eye h.eye = true) :
    h.setEye eye = Horizon.recompute h.scale h.scaleInv eye := by
  unfold Horizon.setEye Horizon.recompute
  rw [if_pos hne]

set_option maxRecDepth 100000 in
/-- The placeholder eye of `setEllipsoid` differs from the default-constructed eye. -/
theorem Vec3.placeholder_ne_zero64 [Libm] :
    Vec3.ne (⟨Flt.lit 10000000, Flt.lit 0, Flt.lit 0⟩ : Vec3 F64) Vec3.zero = true := rfl

/-- The constructor writes the state `setEye` computes for the placeholder eye. -/
theorem Horizon.new_eq_recompute64 [Libm] (mem : Horizon F64) (e : EllipsoidModel F64) :
    Horizon.new mem e =
      Horizon.recompute
        ⟨Flt.lit 1 / e.radiusEquator, Flt.lit 1 / e.radiusEquator, Flt.lit 1 / e.radiusPolar⟩
        ⟨e.radiusEquator, e.radiusEquator, e.radiusPolar⟩
        ⟨Flt.lit 10000000, Flt.lit 0, Flt.lit 0⟩ := by
  unfold Horizon.new Horizon.setEllipsoid
  exact Horizon.setEye_of_ne _ _ Vec3.placeholder_ne_zero64

/-- `setEye` with an eye that `!=` does not tell from the stored one changes nothing. -/
theorem Horizon.setEye_of_not_ne {α : Type} [Flt α] (h : Horizon α) (eye : Vec3 α)
    (hn : Vec3.ne eye h.eye = false) : h.setEye eye = h := by
  unfold Horizon.setEye
  rw [hn]
  rfl

/-- After the constructor, `setEye` leaves the state it computes for the eye, or for the
placeholder eye when `!=` does not tell the eye from it. -/
theorem Horizon.new_setEye64 [Libm] (mem : Horizon F64) (e : EllipsoidModel F64)
    (eye : Vec3 F64) :
    (Horizon.new mem e).setEye eye =
        Horizon.recompute
          ⟨Flt.lit 1 / e.radiusEquator, Flt.lit 1 / e.radiusEquator, Flt.lit 1 / e.radiusPolar⟩
          ⟨e.radiusEquator, e.radiusEquator, e.radiusPolar⟩ eye ∨
      (Horizon.new mem e).setEye eye =
        Horizon.recompute
          ⟨Flt.lit 1 / e.radiusEquator, Flt.lit 1 / e.radiusEquator, Flt.lit 1 / e.radiusPolar⟩
          ⟨e.radiusEquator, e.radiusEquator, e.radiusPolar⟩
          ⟨Flt.lit 10000000, Flt.lit 0, Flt.lit 0⟩ := by
  rw [Horizon.new_eq_recompute64 mem e]
  by_cases h : Vec3.ne eye ⟨Flt.lit 10000000, Flt.lit 0, Flt.lit 0⟩ = true
  · exact Or.inl (Horizon.setEye_of_ne _ _ h)
  · exact Or.inr (Horizon.setEye_of_not_ne _ _ (Bool.not_eq_true _ ▸ h))

/-- The state after the constructor and `setEye` has a NaN `coneTangent` when its
`scaledHorizonMag2` is below zero. -/
theorem Horizon.new_setEye_coneTan_of_neg [Libm] (mem : Horizon F64) (e : EllipsoidModel F64)
    (eye : Vec3 F64)
    (hneg : F64.lt ((Horizon.new mem e).setEye eye).VHmag2 (F64.ofNat 0) = true) :
    ((Horizon.new mem e).setEye eye).coneTan = F64.nan := by
  rcases Horizon.new_setEye64 mem e eye with h | h
  · rw [h] at hneg ⊢
    exact F64.coneTan_nan_of_neg _ _ hneg
  · rw [h] at hneg ⊢
    exact F64.coneTan_nan_of_neg _ _ hneg

theorem Horizon.configured64_coneTan [Libm] (Req Rpol : Nat) (eye : Vec3 F64)
    (hneg : F64.lt (Horizon.configured64 Req Rpol eye).VHmag2 (F64.ofNat 0) = true) :
    (Horizon.configured64 Req Rpol eye).coneTan = F64.nan :=
  Horizon.new_setEye_coneTan_of_neg _ _ eye hneg

/-- Stage 2 answers "not visible" when `coneTangent` is NaN. -/
theorem Horizon.stage2Spec_of_coneTan_nan [Libm] (h : Horizon F64) (target : Vec3 F64)
    (radius : F64) (hT : h.coneTan = F64.nan) : h.stage2Spec target radius = false := by
  unfold Horizon.stage2Spec
  simp only [hT]
  show F64.lt (F64.neg radius) (F64.mul (F64.sub _ (F64.mul _ F64.nan)) h.coneCos) = false
  rw [F64.mul_nan_right, F64.sub_nan_right, F64.mul_nan_left, F64.lt_nan_right]

/-- Stage 2 answers "not visible" when its square root is NaN. -/
theorem Horizon.stage2Spec_of_sqrt_nan [Libm] (h : Horizon F64) (target : Vec3 F64)
    (radius : F64) (hc : (Flt.sqrt (h.stage2Radicand target) : F64) = F64.nan) :
    h.stage2Spec target radius = false := by
  unfold Horizon.stage2Radicand at hc
  unfold Horizon.stage2Spec
  simp only [hc]
  show F64.lt (F64.neg radius) (F64.mul (F64.sub F64.nan _) h.coneCos) = false
  rw [F64.sub_nan_left, F64.mul_nan_left, F64.lt_nan_right]

/-- The exit of `isVisible` is the Stage 2 exit only when Stage 2 answers "visible". -/
theorem Horizon.stage2Spec_of_exit {α : Type} [Flt α] (h : Horizon α) (target : Vec3 α)
    (radius : α) (he : h.isVisibleExit target radius = Exit.stage2) :
    h.stage2Spec target radius = true := by
  unfold Horizon.isVisibleExit at he
  unfold Horizon.stage2Spec
  split at he
  · cases he
  · simp only [] at he
    split at he
    · cases he
    · split at he
      · assumption
      · cases he

/-- The last `return` of `isVisible` is taken when all three tests fail. -/
theorem Horizon.isVisibleExit_occluded {α : Type} [Flt α] (h : Horizon α) (target : Vec3 α)
    (radius : α)
    (h0 : (Flt.le h.scaleInv.x radius || Flt.le h.scaleInv.y radius ||
      Flt.le h.scaleInv.z radius) = false)
    (h1 : Flt.le (Vec3.dot (Vec3.componentMultiply Vec3.zero h.scale) h.VC) h.VHmag2 = false)
    (h2 : h.stage2Spec target radius = false) :
    h.isVisibleExit target radius = Exit.occluded := by
  unfold Horizon.stage2Spec at h2
  unfold Horizon.isVisibleExit
  simp only [h0, h1, h2]
  rfl

theorem Vec3.length_rot90 [Libm] (v : Vec3 F64) :
    Vec3.length (Vec3.rot90 v) = Vec3.length v := by
  show F64.sqrt (F64.add (F64.add (F64.mul (F64.neg v.y) (F64.neg v.y)) (F64.mul v.x v.x))
      (F64.mul v.z v.z)) =
    F64.sqrt (F64.add (F64.add (F64.mul v.x v.x) (F64.mul v.y v.y)) (F64.mul v.z v.z))
  rw [F64.sumsq_rot]

theorem Vec3.normalize_rot90 [Libm] (v : Vec3 F64) :
    Vec3.normalize (Vec3.rot90 v) = Vec3.rot90 (Vec3.normalize v) := by
  unfold Vec3.normalize
  simp only [Vec3.length_rot90]
  split
  · exact Vec3.mk_congr (F64.neg_mul _ _) rfl
  · rfl

theorem Vec3.scaled_rot90 [Libm] (e sc : Vec3 F64) (hsc : sc.x = sc.y) :
    Vec3.componentMultiply (Vec3.neg (Vec3.rot90 e)) sc =
      Vec3.rot90 (Vec3.componentMultiply (Vec3.neg e) sc) := by
  have h1 : F64.mul (F64.neg (F64.neg e.y)) sc.x = F64.neg (F64.mul (F64.neg e.y) sc.y) := by
    rw [F64.neg_neg, F64.neg_mul, F64.neg_neg, hsc]
  have h2 : F64.mul (F64.neg e.x) sc.y = F64.mul (F64.neg e.x) sc.x := by rw [hsc]
  exact Vec3.mk_congr h1 h2

/-- The state `setEye` writes for the turned eye: the eye, the eye direction and
`scaledEyeToCenter` are turned, the five scalar members are the same doubles. -/
theorem Horizon.recompute_rot90 [Libm] (sc si e : Vec3 F64) (hsc : sc.x = sc.y) :
    Horizon.recompute sc si (Vec3.rot90 e) =
      { Horizon.recompute sc si e with
        eye := Vec3.rot90 e
        eyeUnit := Vec3.rot90 (Horizon.recompute sc si e).eyeUnit
        VC := Vec3.rot90 (Horizon.recompute sc si e).VC } := by
  unfold Horizon.recompute
  simp only [Vec3.scaled_rot90 e sc hsc, Vec3.length_rot90, Vec3.normalize_rot90]

/-- The answer of `isVisible` is the same for the recomputed states of an eye and of its
quarter turn, at a target and its quarter turn. -/
theorem Horizon.isVisible_rot90_recompute [Libm] (sc si e t : Vec3 F64) (r : F64)
    (hsc : sc.x = sc.y) :
    (Horizon.recompute sc si (Vec3.rot90 e)).isVisible (Vec3.rot90 t) r =
      (Horizon.recompute sc si e).isVisible t r := by
  rw [Horizon.recompute_rot90 sc si e hsc, Horizon.isVisible_eq, Horizon.isVisible_eq]
  have h1 : Flt.le (Vec3.dot (Vec3.componentMultiply Vec3.zero sc)
        (Vec3.rot90 (Horizon.recompute sc si e).VC)) (Horizon.recompute sc si e).VHmag2 =
      Flt.le (Vec3.dot (Vec3.componentMultiply Vec3.zero sc) (Horizon.recompute sc si e).VC)
        (Horizon.recompute sc si e).VHmag2 :=
    F64.stage1_rot (F64.mul (F64.ofNat 0) sc.x) (F64.mul (F64.ofNat 0) sc.y) _ _ _ _
      (by rw [hsc]) (F64.zeroOrNan_zero_mul sc.x)
  have h2 : Horizon.stage2Spec
        { Horizon.recompute sc si e with
          eye := Vec3.rot90 e
          eyeUnit := Vec3.rot90 (Horizon.recompute sc si e).eyeUnit
          VC := Vec3.rot90 (Horizon.recompute sc si e).VC } (Vec3.rot90 t) r =
      Horizon.stage2Spec (Horizon.recompute sc si e) t r :=
    F64.stage2_rot t.x t.y t.z e.x e.y e.z (Horizon.recompute sc si e).eyeUnit.x
      (Horizon.recompute sc si e).eyeUnit.y (Horizon.recompute sc si e).eyeUnit.z
      (Horizon.recompute sc si e).coneTan (Horizon.recompute sc si e).coneCos r
  rw [h2]
  have h3 : ∀ a b c d : Bool, b = d → (a || b || c) = (a || d || c) := by
    intro a b c d h; rw [h]
  exact h3 _ _ _ _ h1

theorem Vec3.length_same [Libm] {v w : Vec3 F64} (h : Vec3.same v w) :
    Vec3.length v = Vec3.length w := by
  show F64.sqrt (F64.add (F64.add (F64.mul v.x v.x) (F64.mul v.y v.y)) (F64.mul v.z v.z)) =
    F64.sqrt (F64.add (F64.add (F64.mul w.x w.x) (F64.mul w.y w.y)) (F64.mul w.z w.z))
  rw [F64.sumsq_same h.1 h.2.1 h.2.2]

theorem Vec3.normalize_same [Libm] {v w : Vec3 F64} (h : Vec3.same v w) :
    Vec3.same (Vec3.normalize v) (Vec3.normalize w) := by
  unfold Vec3.normalize
  simp only [Vec3.length_same h]
  split
  · exact ⟨F64.same_mul_right _ h.1, F64.same_mul_right _ h.2.1, F64.same_mul_right _ h.2.2⟩
  · exact h

theorem Vec3.scaled_same [Libm] {v w : Vec3 F64} (sc : Vec3 F64) (h : Vec3.same v w) :
    Vec3.same (Vec3.componentMultiply (Vec3.neg v) sc)
      (Vec3.componentMultiply (Vec3.neg w) sc) :=
  ⟨F64.same_mul_right _ (F64.same_neg h.1), F64.same_mul_right _ (F64.same_neg h.2.1),
    F64.same_mul_right _ (F64.same_neg h.2.2)⟩

/-- The state `setEye` writes for an eye equal to another up to the signs of zeros: the
five scalar members are the same doubles. -/
theorem Horizon.recompute_same [Libm] (sc si : Vec3 F64) {e1 e2 : Vec3 F64}
    (h : Vec3.same e1 e2) :
    Horizon.recompute sc si e1 =
      { Horizon.recompute sc si e2 with
        eye := e1
        eyeUnit := Vec3.normalize e1
        VC := Vec3.componentMultiply (Vec3.neg e1) sc } := by
  unfold Horizon.recompute
  simp only [Vec3.length_same (Vec3.scaled_same sc h)]

/-- The answer of `isVisible` does not see the signs of the zeros of the eye. -/
theorem Horizon.isVisible_recompute_same [Libm] (sc si t : Vec3 F64) (r : F64)
    {e1 e2 : Vec3 F64} (h : Vec3.same e1 e2) :
    (Horizon.recompute sc si e1).isVisible t r = (Horizon.recompute sc si e2).isVisible t r := by
  rw [Horizon.recompute_same sc si h, Horizon.isVisible_eq, Horizon.isVisible_eq]
  have hv := Vec3.scaled_same sc h
  have hu := Vec3.normalize_same h
  have h1 : Flt.le (Vec3.dot (Vec3.componentMultiply Vec3.zero sc)
        (Vec3.componentMultiply (Vec3.neg e1) sc)) (Horizon.recompute sc si e2).VHmag2 =
      Flt.le (Vec3.dot (Vec3.componentMultiply Vec3.zero sc) (Horizon.recompute sc si e2).VC)
        (Horizon.recompute sc si e2).VHmag2 :=
    F64.le_same_left _ (F64.dot_same (F64.same_refl _) (F64.same_refl _) (F64.same_refl _)
      hv.1 hv.2.1 hv.2.2)
  have h2 : Horizon.stage2Spec
        { Horizon.recompute sc si e2 with
          eye := e1
          eyeUnit := Vec3.normalize e1
          VC := Vec3.componentMultiply (Vec3.neg e1) sc } t r =
      Horizon.stage2Spec (Horizon.recompute sc si e2) t r :=
    F64.stage2_same t.x t.y t.z (Horizon.recompute sc si e2).coneTan
      (Horizon.recompute sc si e2).coneCos r h.1 h.2.1 h.2.2 hu.1 hu.2.1 hu.2.2
  rw [h2]
  have h3 : ∀ a b c d : Bool, b = d → (a || b || c) = (a || d || c) := by
    intro a b c d h; rw [h]
  exact h3 _ _ _ _ h1

/-- Two canonical vectors that `!=` does not tell apart are the same up to the signs of
zeros. -/
theorem Vec3.same_of_ne_false [Libm] (v w : Vec3 F64) (hv : Vec3.isCanonical v = true)
    (hw : Vec3.isCanonical w = true) (h : Vec3.ne v w = false) : Vec3.same v w := by
  simp only [Vec3.isCanonical, Bool.and_eq_true] at hv hw
  simp only [Vec3.ne, Bool.or_eq_false_iff, Bool.not_eq_false'] at h
  exact ⟨F64.same_of_eq _ _ hv.1.1 hw.1.1 h.1.1, F64.same_of_eq _ _ hv.1.2 hw.1.2 h.1.2,
    F64.same_of_eq _ _ hv.2 hw.2 h.2⟩

theorem Vec3.isCanonical_rot90 [Libm] (v : Vec3 F64) (hv : Vec3.isCanonical v = true) :
    Vec3.isCanonical (Vec3.rot90 v) = true := by
  simp only [Vec3.isCanonical, Bool.and_eq_true] at hv ⊢
  exact ⟨⟨(F64.isCanonical_neg v.y).trans hv.1.2, hv.1.1⟩, hv.2⟩

set_option maxRecDepth 100000 in
/-- The placeholder eye is in canonical representation. -/
theorem Vec3.placeholder_isCanonical [Libm] :
    Vec3.isCanonical (⟨Flt.lit 10000000, Flt.lit 0, Flt.lit 0⟩ : Vec3 F64) = true := rfl

/-- A vector and its quarter turn are not both `==` the placeholder eye. -/
theorem Vec3.rot90_placeholder [Libm] (v : Vec3 F64)
    (h1 : Vec3.ne v ⟨Flt.lit 10000000, Flt.lit 0, Flt.lit 0⟩ = false)
    (h2 : Vec3.ne (Vec3.rot90 v) ⟨Flt.lit 10000000, Flt.lit 0, Flt.lit 0⟩ = false) : False := by
  simp only [Vec3.ne, Bool.or_eq_false_iff, Bool.not_eq_false'] at h1 h2
  exact F64.not_eq_placeholder_zero v.x h1.1.1 h2.1.2

/-! ## Claims that depend on rounding -/

set_option maxRecDepth 100000 in
/-- C6 (refuted as stated): on machine doubles the answer is not invariant under every
rotation about the polar axis.  Sphere of radius 35, rotation with `c = 3/5`, `s = 4/5`
(`c^2 + s^2 = 1`), which takes the eye `(35,0,0)` to `(21,28,0)` and the target `(0,0,0)`
to itself: after `setEye((35,0,0))` the stored `scaledHorizonMag2` is `0` and
`isVisible((0,0,0), 0)` is true; after `setEye((21,28,0))` the stored `scaledHorizonMag2`
is `-2^-52` and `isVisible((0,0,0), 0)` is false. -/
theorem Horizon.isVisible_rotation_differs :
    (3 / 5 : ℝ) ^ 2 + (4 / 5) ^ 2 = 1 ∧
      Vec3.rotZ (3 / 5) (4 / 5) ⟨35, 0, 0⟩ = ⟨21, 28, 0⟩ ∧
      Vec3.rotZ (3 / 5) (4 / 5) ⟨0, 0, 0⟩ = ⟨0, 0, 0⟩ ∧
      Nonempty Libm ∧ ∀ [Libm],
        (Horizon.configured64 35 35 (Vec3.ofNat 35 0 0)).VHmag2 = F64.fin false 0 (-1074) ∧
        (Horizon.configured64 35 35 (Vec3.ofNat 35 0 0)).isVisible (Vec3.ofNat 0 0 0)
          (F64.ofNat 0) = true ∧
        (Horizon.configured64 35 35 (Vec3.ofNat 21 28 0)).VHmag2 =
          F64.fin true 4503599627370496 (-104) ∧
        (Horizon.configured64 35 35 (Vec3.ofNat 21 28 0)).isVisible (Vec3.ofNat 0 0 0)
          (F64.ofNat 0) = false := by
  refine ⟨by norm_num, ?_, ?_, ⟨Libm.allNaN⟩, ?_⟩
  · simp only [Vec3.rotZ]
    norm_num
  · simp only [Vec3.rotZ]
    norm_num
  · intro L
    refine ⟨rfl, rfl, rfl, ?_⟩
    rw [Horizon.isVisible_eq, Horizon.stage2Spec_of_coneTan_nan _ _ _
      (Horizon.configured64_coneTan 35 35 (Vec3.ofNat 21 28 0) rfl)]
    rfl

/-- C6 (amended): on machine doubles the symmetry is exact for the quarter turn about the
polar axis (`c = 0`, `s = 1`, `Rz·v = (-v.y, v.x, v.z)`).  For every ellipsoid (any two
doubles as radii), whatever the storage held before the constructor ran, every eye (a
vector of doubles, each in its canonical representation), every target and every radius,
`isVisible(Rz·target, radius)` after `setEye(Rz·eye)` is `isVisible(target, radius)` after
`setEye(eye)`; this includes the eyes that `setEye` does not tell from the placeholder
eye `(1e7,0,0)` the constructor leaves, for which the call changes nothing. -/
theorem Horizon.isVisible_quarter_turn [Libm] (mem : Horizon F64) (e : EllipsoidModel F64)
    (eye target : Vec3 F64) (radius : F64) (hc : Vec3.isCanonical eye = true) :
    ((Horizon.new mem e).setEye (Vec3.rot90 eye)).isVisible (Vec3.rot90 target) radius =
      ((Horizon.new mem e).setEye eye).isVisible target radius := by
  rw [Horizon.new_eq_recompute64 mem e]
  have hp := Vec3.placeholder_isCanonical
  by_cases h1 : Vec3.ne eye ⟨Flt.lit 10000000, Flt.lit 0, Flt.lit 0⟩ = true
  · by_cases h2 : Vec3.ne (Vec3.rot90 eye) ⟨Flt.lit 10000000, Flt.lit 0, Flt.lit 0⟩ = true
    · rw [Horizon.setEye_of_ne _ (Vec3.rot90 eye) h2, Horizon.setEye_of_ne _ eye h1]
      exact Horizon.isVisible_rot90_recompute _ _ eye target radius rfl
    · have h2f : Vec3.ne (Vec3.rot90 eye) ⟨Flt.lit 10000000, Flt.lit 0, Flt.lit 0⟩ = false := by
        simpa using h2
      rw [Horizon.setEye_of_not_ne _ (Vec3.rot90 eye) h2f, Horizon.setEye_of_ne _ eye h1]
      rw [← Horizon.isVisible_recompute_same _ _ _ _
        (Vec3.same_of_ne_false _ _ (Vec3.isCanonical_rot90 eye hc) hp h2f)]
      exact Horizon.isVisible_rot90_recompute _ _ eye target radius rfl
  · have h1f : Vec3.ne eye ⟨Flt.lit 10000000, Flt.lit 0, Flt.lit 0⟩ = false := by
      simpa using h1
    by_cases h2 : Vec3.ne (Vec3.rot90 eye) ⟨Flt.lit 10000000, Flt.lit 0, Flt.lit 0⟩ = true
    · rw [Horizon.setEye_of_ne _ (Vec3.rot90 eye) h2, Horizon.setEye_of_not_ne _ eye h1f]
      rw [← Horizon.isVisible_recompute_same _ _ target radius
        (Vec3.same_of_ne_false _ _ hc hp h1f)]
      exact Horizon.isVisible_rot90_recompute _ _ eye target radius rfl
    · exact (Vec3.rot90_placeholder eye h1f (by simpa using h2)).elim

set_option maxRecDepth 100000 in
/-- C6, a witness: sphere of radius 2, eye `(1,0,0)` and target `(1,0,0)`, radius 0; the
turned eye is `(-0,1,0)`, and the stored `scaledHorizonMag2` is `-3/4`. -/
theorem Horizon.isVisible_quarter_turn_witness :
    Nonempty Libm ∧ ∀ [Libm],
      Vec3.isCanonical (Vec3.ofNat 1 0 0) = true ∧
      Vec3.rot90 (Vec3.ofNat 1 0 0) = ⟨F64.neg (F64.ofNat 0), F64.ofNat 1, F64.ofNat 0⟩ ∧
      ((Horizon.new Horizon.blank64 ⟨F64.ofNat 2, F64.ofNat 2⟩).setEye
          (Vec3.rot90 (Vec3.ofNat 1 0 0))).isVisible (Vec3.rot90 (Vec3.ofNat 1 0 0))
          (F64.ofNat 0) =
        ((Horizon.new Horizon.blank64 ⟨F64.ofNat 2, F64.ofNat 2⟩).setEye
          (Vec3.ofNat 1 0 0)).isVisible (Vec3.ofNat 1 0 0) (F64.ofNat 0) ∧
      ((Horizon.new Horizon.blank64 ⟨F64.ofNat 2, F64.ofNat 2⟩).setEye
          (Vec3.ofNat 1 0 0)).VHmag2 = F64.fin true 6755399441055744 (-53) := by
  refine ⟨⟨Libm.allNaN⟩, ?_⟩
  intro L
  exact ⟨rfl, rfl,
    Horizon.isVisible_quarter_turn Horizon.blank64 ⟨F64.ofNat 2, F64.ofNat 2⟩
      (Vec3.ofNat 1 0 0) (Vec3.ofNat 1 0 0) (F64.ofNat 0) rfl,
    rfl⟩

set_option maxRecDepth 100000 in
/-- C9 (refuted as stated): a degenerate state does yield "occluded".  Sphere of radius 2,
eye `(1,0,0)` strictly inside it (`scaledEyeToCenterMag2 = 1/4 < 1`), target at the eye,
radius 0: `isVisible` returns false.  The answer does not rest on the unassigned vector of
Stage 1: Stage 1 as the specification words it also does not answer "visible" there. -/
theorem Horizon.isVisible_inside_occluded :
    scaledMag2 2 2 ⟨1, 0, 0⟩ < 1 ∧ Nonempty Libm ∧ ∀ [Libm],
      (Horizon.configured64 2 2 (Vec3.ofNat 1 0 0)).isVisible (Vec3.ofNat 1 0 0)
        (F64.ofNat 0) = false ∧
      (Horizon.configured64 2 2 (Vec3.ofNat 1 0 0)).stage1Spec (Vec3.ofNat 1 0 0)
        (F64.ofNat 0) = false := by
  refine ⟨by norm_num [scaledMag2], ⟨Libm.allNaN⟩, ?_⟩
  intro L
  refine ⟨?_, rfl⟩
  rw [Horizon.isVisible_eq, Horizon.stage2Spec_of_coneTan_nan _ _ _
    (Horizon.configured64_coneTan 2 2 (Vec3.ofNat 1 0 0) rfl)]
  rfl

/-- C9 (amended): `isVisible` has no check for a degenerate state, and Stage 2 does not
fail open.  For every ellipsoid and every eye, if after the constructor and `setEye(eye)`
the stored `scaledHorizonMag2` is `< 0` (an eye at the centre or inside the ellipsoid),
then `coneTangent` is NaN, Stage 2 answers "not visible" for every target and every
radius, and so `isVisible` returns true only through the Stage 0 or the Stage 1 return.
The answer of Stage 1 is not part of the statement. -/
theorem Horizon.isVisible_inside [Libm] (mem : Horizon F64) (e : EllipsoidModel F64)
    (eye target : Vec3 F64) (radius : F64)
    (hneg : F64.lt ((Horizon.new mem e).setEye eye).VHmag2 (F64.ofNat 0) = true) :
    ((Horizon.new mem e).setEye eye).coneTan = F64.nan ∧
      ((Horizon.new mem e).setEye eye).stage2Spec target radius = false ∧
      ((Horizon.new mem e).setEye eye).isVisibleExit target radius ≠ Exit.stage2 ∧
      (((Horizon.new mem e).setEye eye).isVisible target radius = true ↔
        ((Horizon.new mem e).setEye eye).isVisibleExit target radius = Exit.stage0 ∨
          ((Horizon.new mem e).setEye eye).isVisibleExit target radius = Exit.stage1) := by
  have hT := Horizon.new_setEye_coneTan_of_neg mem e eye hneg
  have h2 := Horizon.stage2Spec_of_coneTan_nan ((Horizon.new mem e).setEye eye) target radius hT
  have h3 : ((Horizon.new mem e).setEye eye).isVisibleExit target radius ≠ Exit.stage2 := by
    intro he
    rw [Horizon.stage2Spec_of_exit _ _ _ he] at h2
    cases h2
  refine ⟨hT, h2, h3, ?_⟩
  unfold Horizon.isVisible
  cases he : ((Horizon.new mem e).setEye eye).isVisibleExit target radius with
  | stage0 => simp [Exit.result]
  | stage1 => simp [Exit.result]
  | stage2 => exact absurd he h3
  | occluded => simp [Exit.result]

set_option maxRecDepth 100000 in
/-- C9, a witness: sphere of radius 2, eye `(1,0,0)`, target `(5,0,0)`, radius 0. -/
theorem Horizon.isVisible_inside_witness :
    Nonempty Libm ∧ ∀ [Libm],
      F64.lt ((Horizon.new Horizon.blank64 ⟨F64.ofNat 2, F64.ofNat 2⟩).setEye
        (Vec3.ofNat 1 0 0)).VHmag2 (F64.ofNat 0) = true ∧
      ((Horizon.new Horizon.blank64 ⟨F64.ofNat 2, F64.ofNat 2⟩).setEye
        (Vec3.ofNat 1 0 0)).coneTan = F64.nan ∧
      ((Horizon.new Horizon.blank64 ⟨F64.ofNat 2, F64.ofNat 2⟩).setEye
        (Vec3.ofNat 1 0 0)).isVisibleExit (Vec3.ofNat 5 0 0) (F64.ofNat 0) ≠ Exit.stage2 := by
  refine ⟨⟨Libm.allNaN⟩, ?_⟩
  intro L
  have h := Horizon.isVisible_inside Horizon.blank64 ⟨F64.ofNat 2, F64.ofNat 2⟩
    (Vec3.ofNat 1 0 0) (Vec3.ofNat 5 0 0) (F64.ofNat 0) rfl
  exact ⟨rfl, h.1, h.2.2.1⟩

set_option maxRecDepth 100000 in
/-- C17 (a defect of the code): line 86 takes the root of `scaledHorizonMag2` with `sqrtf`,
in single precision, where line 84 and the specification use `sqrt`.  Unit sphere, eye
`(2,0,0)`: `setEye` stores `scaledEyeToCenterMag = 2` and `scaledHorizonMag2 = 3`;
`sqrt(3)` is `0x3FFBB67AE8584CAA` and `sqrtf(3)` is `0x3FFBB67AE0000000`; the claim's
`(2 - 1/2)/sqrt(3)` is `7800463371553963 * 2^-53` (0.8660254037844387) and the stored
`coneCosine` is `7800463511558487 * 2^-53` (0.8660254193280633), which is
`(2 - 1/2)/sqrtf(3)`. -/
theorem Horizon.setEye_coneCos_single :
    Nonempty Libm ∧ ∀ [Libm],
      (Horizon.configured64 1 1 (Vec3.ofNat 2 0 0)).VCmag = F64.ofNat 2 ∧
      (Horizon.configured64 1 1 (Vec3.ofNat 2 0 0)).VHmag2 = F64.ofNat 3 ∧
      Flt.sqrt (F64.ofNat 3) = F64.fin false 7800463371553962 (-52) ∧
      Flt.sqrtf (F64.ofNat 3) = F64.fin false 7800463231549440 (-52) ∧
      (F64.ofNat 2 - Flt.lit 1 / F64.ofNat 2) / Flt.sqrt (F64.ofNat 3) =
        F64.fin false 7800463371553963 (-53) ∧
      (F64.ofNat 2 - Flt.lit 1 / F64.ofNat 2) / Flt.sqrtf (F64.ofNat 3) =
        F64.fin false 7800463511558487 (-53) ∧
      (Horizon.configured64 1 1 (Vec3.ofNat 2 0 0)).coneCos =
        F64.fin false 7800463511558487 (-53) := by
  refine ⟨⟨Libm.allNaN⟩, ?_⟩
  intro L
  exact ⟨rfl, rfl, rfl, rfl, rfl, rfl, rfl⟩

set_option maxRecDepth 100000 in
/-- C19 (a defect of the code): with the single-precision root of line 86 the stored
`coneCosine` can exceed 1.  WGS84 radii, eye `(18481000000,0,0)` strictly outside the
ellipsoid: the stored `coneCosine` is `4503599664226802 * 2^-52` (1.0000000082), above 1,
so `acos` is applied outside its domain and the stored `coneTangent` is NaN, whatever libm
is linked.  With `sqrt` in place of `sqrtf` the quotient is `9007198718331393 * 2^-53`,
below 1. -/
theorem Horizon.coneCos_exceeds_one :
    1 < scaledMag2 6378137 6356752 ⟨18481000000, 0, 0⟩ ∧ Nonempty Libm ∧ ∀ [Libm],
      (Horizon.configured64 6378137 6356752 (Vec3.ofNat 18481000000 0 0)).coneCos =
        F64.fin false 4503599664226802 (-52) ∧
      F64.lt (F64.ofNat 1)
        (Horizon.configured64 6378137 6356752 (Vec3.ofNat 18481000000 0 0)).coneCos = true ∧
      (Horizon.configured64 6378137 6356752 (Vec3.ofNat 18481000000 0 0)).coneTan =
        F64.nan ∧
      ((Horizon.configured64 6378137 6356752 (Vec3.ofNat 18481000000 0 0)).VCmag -
          Flt.lit 1 / (Horizon.configured64 6378137 6356752 (Vec3.ofNat 18481000000 0 0)).VCmag) /
        Flt.sqrt (Horizon.configured64 6378137 6356752 (Vec3.ofNat 18481000000 0 0)).VHmag2 =
        F64.fin false 9007198718331393 (-53) := by
  refine ⟨by norm_num [scaledMag2], ⟨Libm.allNaN⟩, ?_⟩
  intro L
  refine ⟨rfl, rfl, ?_, rfl⟩
  have h : (Horizon.configured64 6378137 6356752 (Vec3.ofNat 18481000000 0 0)).coneTan =
      Flt.tan (Flt.acos
        (Horizon.configured64 6378137 6356752 (Vec3.ofNat 18481000000 0 0)).coneCos) := rfl
  rw [h]
  show Libm.tan (Libm.acos _) = F64.nan
  rw [Libm.acos_gt_one
    (Horizon.configured64 6378137 6356752 (Vec3.ofNat 18481000000 0 0)).coneCos rfl,
    Libm.tan_nan]

set_option maxRecDepth 100000 in
/-- C20 (refuted as stated): on machine doubles the radicand of Stage 2 can be negative.
Sphere of radius 10, eye `(1,0,2)` inside it (so that `isVisible` reaches Stage 2), target
`(3,0,6)` on the line through the centre and the eye, radius 0: `eyeUnit·eyeUnit` is
`1 - 2^-53`, not 1; the radicand `VT·VT - a*a` is `-2^-48`; its `sqrt` is NaN; `isVisible`
leaves through the last `return`. -/
theorem Horizon.stage2_radicand_negative :
    Nonempty Libm ∧ ∀ [Libm],
      Vec3.dot (Horizon.configured64 10 10 (Vec3.ofNat 1 0 2)).eyeUnit
          (Horizon.configured64 10 10 (Vec3.ofNat 1 0 2)).eyeUnit =
        F64.fin false 9007199254740991 (-53) ∧
      (Horizon.configured64 10 10 (Vec3.ofNat 1 0 2)).stage2Radicand (Vec3.ofNat 3 0 6) =
        F64.fin true 4503599627370496 (-100) ∧
      Flt.sqrt ((Horizon.configured64 10 10 (Vec3.ofNat 1 0 2)).stage2Radicand
        (Vec3.ofNat 3 0 6)) = F64.nan ∧
      (Horizon.configured64 10 10 (Vec3.ofNat 1 0 2)).isVisibleExit (Vec3.ofNat 3 0 6)
        (F64.ofNat 0) = Exit.occluded := by
  refine ⟨⟨Libm.allNaN⟩, ?_⟩
  intro L
  refine ⟨rfl, rfl, rfl, ?_⟩
  exact Horizon.isVisibleExit_occluded _ _ _ rfl rfl
    (Horizon.stage2Spec_of_coneTan_nan _ (Vec3.ofNat 3 0 6) (F64.ofNat 0)
      (Horizon.configured64_coneTan 10 10 (Vec3.ofNat 1 0 2) rfl))

/-- C20 (amended): the square root of Stage 2 is taken of the computed radicand
`VT·VT - a*a`, whose sign rounding decides.  For every Horizon state, every target and
every radius: Stage 2 compares `-radius` with `(sqrt(radicand) - a*coneTangent)*coneCosine`;
when the computed radicand is `>= 0`, `c = sqrt(radicand)` is a number `>= 0`, not NaN;
when it is `< 0`, `c` is NaN, Stage 2 answers "not visible" and `isVisible` does not leave
through the Stage 2 return. -/
theorem Horizon.stage2_sqrt [Libm] (h : Horizon F64) (target : Vec3 F64) (radius : F64) :
    h.stage2Spec target radius =
        Flt.lt (-radius)
          ((Flt.sqrt (h.stage2Radicand target) -
              Vec3.dot (Vec3.sub target h.eye) (Vec3.neg h.eyeUnit) * h.coneTan) *
            h.coneCos) ∧
      (Flt.le (Flt.lit 0) (h.stage2Radicand target) = true →
        Flt.sqrt (h.stage2Radicand target) ≠ F64.nan ∧
          Flt.le (Flt.lit 0) (Flt.sqrt (h.stage2Radicand target)) = true) ∧
      (Flt.lt (h.stage2Radicand target) (Flt.lit 0) = true →
        Flt.sqrt (h.stage2Radicand target) = F64.nan ∧
          h.stage2Spec target radius = false ∧
          h.isVisibleExit target radius ≠ Exit.stage2) := by
  refine ⟨rfl, fun hp => F64.sqrt_of_nonneg _ hp, fun hn => ?_⟩
  have hc : (Flt.sqrt (h.stage2Radicand target) : F64) = F64.nan := F64.sqrt_of_neg _ hn
  have h2 := Horizon.stage2Spec_of_sqrt_nan h target radius hc
  refine ⟨hc, h2, ?_⟩
  intro he
  rw [Horizon.stage2Spec_of_exit _ _ _ he] at h2
  cases h2

set_option maxRecDepth 100000 in
/-- C20, a witness of the first case: sphere of radius 10, eye `(1,0,2)`, target `(5,0,0)`:
the computed radicand is `>= 0` and its root is not NaN. -/
theorem Horizon.stage2_sqrt_witness :
    Nonempty Libm ∧ ∀ [Libm],
      Flt.le (Flt.lit 0)
        ((Horizon.configured64 10 10 (Vec3.ofNat 1 0 2)).stage2Radicand (Vec3.ofNat 5 0 0)) =
        true ∧
      Flt.sqrt ((Horizon.configured64 10 10 (Vec3.ofNat 1 0 2)).stage2Radicand
        (Vec3.ofNat 5 0 0)) ≠ F64.nan := by
  refine ⟨⟨Libm.allNaN⟩, ?_⟩
  intro L
  exact ⟨rfl, ((Horizon.stage2_sqrt (Horizon.configured64 10 10 (Vec3.ofNat 1 0 2))
    (Vec3.ofNat 5 0 0) (F64.ofNat 0)).2.1 rfl).1⟩

